import Mathlib

/-!
Verification development for the VNSync room-coordination server.

The definitions below are a shallow embedding of the server's coordination
core (`src/VNSyncServer.ts`, `src/eventValidator.ts`, `src/helpers.ts`):

* `ServerState` holds the connected sockets (`clients`, mirroring the
  transport's socket registry together with each socket's `data` record and
  the room it has joined), the `ghostSessions` map and the per-address
  connection counters, both mirrored as insertion-ordered association lists
  exactly as JavaScript `Map`s behave.
* Room membership is derived, as in the source, from the adapter: a room
  exists iff some connected socket has joined it.
* Event handlers (`onCreateRoom`, `onJoinRoom`, `onToggleReady`,
  `onUpdateClipboard`), the validation pipeline, the middleware chain of a
  handshake (`connectStep`), disconnection handling with its cascading
  teardown (`discRun`), and the periodic ghost-session sweep
  (`cleanGhostSessions`) are translated function by function.
* Nondeterministic inputs of the source (socket ids, generated uuids and
  room names, wall-clock time, disconnect reasons) are passed as explicit
  parameters; the guarantees the generators provide (freshness of ids and
  generated room names) become side conditions (`StepOK`).
* The cascading disconnect of `io.in(room).disconnectSockets()` is expressed
  with an explicit fuel parameter; top-level entry points supply fuel that
  exceeds any possible cascade depth.
-/

namespace VNSync

/-- A JavaScript value as it may arrive in a socket.io event payload. -/
inductive JSValue where
  | str (s : String)
  | num (n : Int)
  | bool (b : Bool)
  | null
  | undefined
deriving DecidableEq, Repr

/-- JavaScript truthiness of a `JSValue`. -/
def JSValue.truthy : JSValue → Bool
  | .str s => !(s == "")
  | .num n => !(n == 0)
  | .bool b => b
  | .null => false
  | .undefined => false

/-- The JavaScript expression `v || undefined`. -/
def jsOrUndefined (v : JSValue) : JSValue :=
  if v.truthy then v else JSValue.undefined

/-- The JavaScript cast `value as string` after validation has ensured the
value is a string. -/
def asString : JSValue → String
  | .str s => s
  | _ => ""

/-- Result (outcome) of an event, from `interfaces/EventResult.ts`. -/
inductive EventResult (T : Type) where
  | ok (data : T)
  | fail (failMessage : String)
deriving DecidableEq, Repr

/-- Server configuration, from `interfaces/Configuration.ts`. -/
structure Configuration where
  maxConnectionsFromSingleSource : Nat
  maxClipboardEntries : Nat
  ghostSessionLifetime : Nat
  ghostSessionCleanupInterval : Nat
deriving DecidableEq, Repr

/-- Per-socket VNSync data, from `interfaces/VNSyncData.ts`. -/
structure VNSyncData where
  sessionId : String
  username : String
  isHost : Bool
  room : Option String
  isReady : Bool
  clipboard : List String
deriving DecidableEq, Repr

/-- A ghost session, from `interfaces/GhostSession.ts`. -/
structure GhostSession where
  leftAt : Nat
  data : VNSyncData
deriving DecidableEq, Repr

/-- One connected socket: its transport identity, handshake address, its
`data` record and the room it has joined in the adapter (sockets of this
server join at most one room). -/
structure Client where
  id : Nat
  address : String
  data : VNSyncData
  joined : Option String
deriving DecidableEq, Repr

/-- The whole coordination state of a `VNSyncServer` instance. -/
structure ServerState where
  clients : List Client
  ghostSessions : List (String × GhostSession)
  addresses : List (String × Nat)
deriving DecidableEq, Repr

/-- The empty server state. -/
def initialState : ServerState := ⟨[], [], []⟩

/-- Server-initiated notifications, recorded as they are emitted. -/
inductive Emission where
  | sessionIdMsg (socketId : Nat) (sessionId : String)
  | roomStateChange (roomName : String) (clipboard : List String)
      (membersState : List (String × Bool × Bool))
  | roomReady (socketId : Nat)
deriving DecidableEq, Repr

/-! ### JavaScript `Map` behaviour as an association list -/

/-- `Map.get`. -/
def lookupA {α : Type} : List (String × α) → String → Option α
  | [], _ => none
  | (k, v) :: rest, key => if k == key then some v else lookupA rest key

/-- `Map.set`: replaces in place, appends when the key is new. -/
def setA {α : Type} : List (String × α) → String → α → List (String × α)
  | [], key, v => [(key, v)]
  | (k, w) :: rest, key, v =>
      if k == key then (k, v) :: rest else (k, w) :: setA rest key v

/-- `Map.delete`. -/
def eraseA {α : Type} : List (String × α) → String → List (String × α)
  | [], _ => []
  | (k, w) :: rest, key => if k == key then rest else (k, w) :: eraseA rest key

/-! ### helpers.ts -/

/-- The sockets currently joined to `roomName` (the adapter's room set). -/
def roomMembers (s : ServerState) (roomName : String) : List Client :=
  s.clients.filter (fun c => c.joined == some roomName)

/-- `roomExists` from helpers.ts: the adapter has a (necessarily non-empty)
set for this room name. -/
def roomExistsB (s : ServerState) (roomName : String) : Bool :=
  !(roomMembers s roomName).isEmpty

/-- `getClientBySessionId` from helpers.ts. -/
def getClientBySessionId (s : ServerState) (sessionId : String) : Option Client :=
  s.clients.find? (fun c => c.data.sessionId == sessionId)

/-! ### eventValidator.ts -/

/-- A validation rule: passes-or-not together with the error message. -/
def ValidationRule : Type := JSValue → Bool × String

/-- `validateEventArguments`: walks the rules positionally over the supplied
arguments (an absent argument is `undefined`, and each argument is first
coerced by `arg || undefined`), short-circuiting on the first failing rule.
Returns the failure message, `none` when validation passed. -/
def validateEventArguments : List ValidationRule → List JSValue → Option String
  | [], _ => none
  | rule :: rest, args =>
    let result := rule (jsOrUndefined (args.headD JSValue.undefined))
    if result.fst then validateEventArguments rest args.tail
    else some result.snd

/-- The `nonEmptyString` rule factory. -/
def nonEmptyString (fieldName : String) : ValidationRule := fun field =>
  ((match field with
    | .str s => decide (0 < s.length)
    | _ => false),
   fieldName ++ " should be a non-empty string.")

/-- The `string` rule factory. -/
def string (fieldName : String) : ValidationRule := fun field =>
  ((match field with
    | .str _ => true
    | _ => false),
   fieldName ++ " should be a string.")

/-- `validateRoomPresence`: the client must (or must not) currently be in a
room. Returns the failure message, `none` when the precondition holds. -/
def validateRoomPresence (c : Client) (expected : Bool) : Option String :=
  let isInRoom := c.data.room.isSome
  if isInRoom == expected then none
  else some (if expected then "This user is not yet in a room."
             else "This user is already in a room.")

/-! ### Address throttle -/

/-- `isAddressBlocked`. -/
def isAddressBlocked (cfg : Configuration) (s : ServerState) (address : String) : Bool :=
  match lookupA s.addresses address with
  | none => false
  | some count => cfg.maxConnectionsFromSingleSource ≤ count

/-- `addAddress`. -/
def addAddress (s : ServerState) (address : String) : ServerState :=
  match lookupA s.addresses address with
  | none => { s with addresses := setA s.addresses address 1 }
  | some count => { s with addresses := setA s.addresses address (count + 1) }

/-- `removeAddress` (the impossible missing-entry branch, a thrown internal
error in the source, leaves the state unchanged here). -/
def removeAddress (s : ServerState) (address : String) : ServerState :=
  match lookupA s.addresses address with
  | none => s
  | some count =>
      if count - 1 = 0 then { s with addresses := eraseA s.addresses address }
      else { s with addresses := setA s.addresses address (count - 1) }

/-! ### Room state helpers of VNSyncServer -/

/-- Update the one socket with the given id (socket ids are unique in the
transport's registry). -/
def updClient (s : ServerState) (cid : Nat) (f : Client → Client) : ServerState :=
  { s with clients := s.clients.map (fun c => if c.id == cid then f c else c) }

/-- `emitRoomStateChange`: the broadcast state is the host's clipboard (empty
when the room currently has no connected host) and every member's
username/readiness/hostness. -/
def emitRoomStateChange (s : ServerState) (roomName : String) :
    ServerState × List Emission :=
  let members := roomMembers s roomName
  let host := members.find? (fun m => m.data.isHost)
  let membersState := members.map (fun m =>
    (m.data.username, m.data.isReady, m.data.isHost))
  let clipboard := (host.map (fun h => h.data.clipboard)).getD []
  (s, [Emission.roomStateChange roomName clipboard membersState])

/-- `entireRoomReadyCheck`: when every member of an existing room is ready,
reset every member's readiness and notify the room's host (if any is
connected). The fold mirrors lodash-free `members.reduce` seeded with
`members[0].data.isReady`. -/
def entireRoomReadyCheck (s : ServerState) (roomName : String) :
    ServerState × List Emission :=
  match roomMembers s roomName with
  | [] => (s, [])
  | m :: rest =>
    let everyoneIsReady :=
      (m :: rest).foldl (fun acc x => acc && x.data.isReady) m.data.isReady
    if everyoneIsReady then
      let s2 := { s with clients := s.clients.map (fun c =>
        if c.joined == some roomName then
          { c with data := { c.data with isReady := false } }
        else c) }
      match (m :: rest).find? (fun x => x.data.isHost) with
      | none => (s2, [])
      | some host => (s2, [Emission.roomReady host.id])
    else (s, [])

/-! ### Disconnection handling

`onDisconnect` classifies the reason; an expected disconnect is finalized by
`handleRoomDisconnect`, which for a host calls
`io.in(room).disconnectSockets()`: every member socket is disconnected in
turn, and each such disconnect synchronously re-enters the registered
`disconnect` handler with reason `"server namespace disconnect"`. The
mutual recursion is expressed by one fueled interpreter `discRun`; the
fuel strictly exceeds any possible cascade depth at the entry points. -/

/-- The disconnect reasons classified as unexpected. -/
def badReasons : List String := ["ping timeout", "transport close", "transport error"]

/-- The pending piece of disconnection work. -/
inductive DiscCall where
  | client (cid : Nat) (reason : String) (now : Nat)
  | onDis (data : VNSyncData) (reason : String) (now : Nat)
  | handle (data : VNSyncData)
  | each (ids : List Nat) (now : Nat)
deriving DecidableEq, Repr

/-- Fueled interpreter for the disconnection cascade:
* `.client`: the transport removes the socket from its registry and from all
  rooms, then the `disconnect` handler body runs (`onDisconnect` followed by
  `removeAddress`);
* `.onDis`: `onDisconnect` — an unexpected reason stores a ghost session
  snapshot, an expected one finalizes via `handleRoomDisconnect`;
* `.handle`: `handleRoomDisconnect` — nothing to do without an existing
  room; a host departure disconnects every room member; a member departure
  re-runs the ready check and rebroadcasts;
* `.each`: `disconnectSockets()` over the listed socket ids. -/
def discRun : Nat → ServerState → DiscCall → ServerState × List Emission
  | 0, s, _ => (s, [])
  | fuel + 1, s, call =>
    match call with
    | .client cid reason now =>
      match s.clients.find? (fun c => c.id == cid) with
      | none => (s, [])
      | some c =>
        let s1 := { s with clients := s.clients.filter (fun x => !(x.id == cid)) }
        let r := discRun fuel s1 (.onDis c.data reason now)
        (removeAddress r.1 c.address, r.2)
    | .onDis data reason now =>
      if badReasons.contains reason then
        let s1 := { s with ghostSessions := setA s.ghostSessions data.sessionId ⟨now, data⟩ }
        (s1, [])
      else discRun fuel s (.handle data)
    | .handle data =>
      let roomName := data.room.getD ""
      if roomName == "" || !(roomExistsB s roomName) then (s, [])
      else if data.isHost then
        discRun fuel s (.each ((roomMembers s roomName).map (fun c => c.id)) 0)
      else
        let r1 := entireRoomReadyCheck s roomName
        let r2 := emitRoomStateChange r1.1 roomName
        (r2.1, r1.2 ++ r2.2)
    | .each ids now =>
      match ids with
      | [] => (s, [])
      | cid :: rest =>
        let r1 := discRun fuel s (.client cid "server namespace disconnect" now)
        let r2 := discRun fuel r1.1 (.each rest now)
        (r2.1, r1.2 ++ r2.2)

/-- Fuel that strictly dominates any cascade over the current clients. -/
def bigFuel (s : ServerState) : Nat := 4 * s.clients.length + 9

/-- A socket disconnecting with the given reason (the full transport-level
pipeline: leave rooms, deregister, run the `disconnect` handler). -/
def disconnectStep (s : ServerState) (cid : Nat) (reason : String) (now : Nat) :
    ServerState × List Emission :=
  discRun (bigFuel s) s (.client cid reason now)

/-- `handleRoomDisconnect` as invoked directly (ghost-session expiry). -/
def handleRoomDisconnectTop (s : ServerState) (data : VNSyncData) :
    ServerState × List Emission :=
  discRun (bigFuel s) s (.handle data)

/-- `cleanGhostSessions`: sweep over the ghost-session entries, finalizing
and discarding every entry whose lifetime has elapsed. -/
def cleanGhostsGo (cfg : Configuration) (now : Nat) :
    List (String × GhostSession) → ServerState → ServerState × List Emission
  | [], s => (s, [])
  | (sessionId, ghost) :: rest, s =>
    if ghost.leftAt + cfg.ghostSessionLifetime ≤ now then
      let r1 := handleRoomDisconnectTop s ghost.data
      let s2 := { r1.1 with ghostSessions := eraseA r1.1.ghostSessions sessionId }
      let r2 := cleanGhostsGo cfg now rest s2
      (r2.1, r1.2 ++ r2.2)
    else cleanGhostsGo cfg now rest s

/-- The periodic ghost-session sweep at time `now`. -/
def cleanGhostSessions (cfg : Configuration) (now : Nat) (s : ServerState) :
    ServerState × List Emission :=
  cleanGhostsGo cfg now s.ghostSessions s

/-! ### Event handlers -/

/-- `onCreateRoom` (the generated room name, unique by the generator's
collision check, is an explicit parameter). -/
def onCreateRoom (s : ServerState) (c : Client) (username : String)
    (roomName : String) : ServerState × EventResult String × List Emission :=
  let s1 := updClient s c.id (fun x =>
    { x with
        data := { x.data with
          username := username
          room := some roomName
          isHost := true }
        joined := some roomName })
  let r := emitRoomStateChange s1 roomName
  (r.1, .ok roomName, r.2)

/-- The apostrophe character, for building the verbatim fail messages. -/
def apos : String := String.singleton (Char.ofNat 39)

/-- `onJoinRoom`. -/
def onJoinRoom (s : ServerState) (c : Client) (username : String)
    (roomName : String) : ServerState × EventResult Unit × List Emission :=
  if !(roomExistsB s roomName) then
    (s, .fail ("Room \"" ++ roomName ++ "\" doesn" ++ apos ++ "t exist."), [])
  else
    match (roomMembers s roomName).find? (fun m => m.data.username == username) with
    | some _ =>
      (s, .fail ("Username \"" ++ username ++
        "\" is already taken by someone else in this room."), [])
    | none =>
      let s1 := updClient s c.id (fun x =>
        { x with
            data := { x.data with
              room := some roomName
              username := username }
            joined := some roomName })
      let r := emitRoomStateChange s1 roomName
      (r.1, .ok (), r.2)

/-- `onToggleReady`. -/
def onToggleReady (s : ServerState) (c : Client) :
    ServerState × EventResult Unit × List Emission :=
  let roomName := c.data.room.getD ""
  let s1 := updClient s c.id (fun x =>
    { x with data := { x.data with isReady := !x.data.isReady } })
  let r1 := entireRoomReadyCheck s1 roomName
  let r2 := emitRoomStateChange r1.1 roomName
  (r2.1, .ok (), r1.2 ++ r2.2)

/-- `onUpdateClipboard`: prepend, truncate to the configured maximum,
broadcast. -/
def onUpdateClipboard (cfg : Configuration) (s : ServerState) (c : Client)
    (clipboardEntry : String) : ServerState × EventResult Unit × List Emission :=
  if !c.data.isHost then
    (s, .fail "This user is not a host.", [])
  else
    let roomName := c.data.room.getD ""
    let s1 := updClient s c.id (fun x =>
      { x with data := { x.data with
          clipboard := (clipboardEntry :: x.data.clipboard).take
            cfg.maxClipboardEntries } })
    let r := emitRoomStateChange s1 roomName
    (r.1, .ok (), r.2)

/-! ### The registered event pipeline (`registerEvent`): argument validation,
then the room-presence precondition, then the handler. Each event returns
`none` when no connected socket has the given id (no such event can occur). -/

/-- The `createRoom` event as received from socket `cid`. -/
def createRoomEvent (s : ServerState) (cid : Nat) (args : List JSValue)
    (roomName : String) : Option (ServerState × EventResult String × List Emission) :=
  (s.clients.find? (fun c => c.id == cid)).map (fun c =>
    match validateEventArguments [nonEmptyString "Username"] args with
    | some msg => (s, .fail msg, [])
    | none =>
      match validateRoomPresence c false with
      | some msg => (s, .fail msg, [])
      | none => onCreateRoom s c (asString (args.headD .undefined)) roomName)

/-- The `joinRoom` event as received from socket `cid`. -/
def joinRoomEvent (s : ServerState) (cid : Nat) (args : List JSValue) :
    Option (ServerState × EventResult Unit × List Emission) :=
  (s.clients.find? (fun c => c.id == cid)).map (fun c =>
    match validateEventArguments
        [nonEmptyString "Username", nonEmptyString "Room name"] args with
    | some msg => (s, .fail msg, [])
    | none =>
      match validateRoomPresence c false with
      | some msg => (s, .fail msg, [])
      | none =>
        onJoinRoom s c (asString (args.headD .undefined))
          (asString (args.tail.headD .undefined)))

/-- The `toggleReady` event as received from socket `cid`. -/
def toggleReadyEvent (s : ServerState) (cid : Nat) :
    Option (ServerState × EventResult Unit × List Emission) :=
  (s.clients.find? (fun c => c.id == cid)).map (fun c =>
    match validateEventArguments [] [] with
    | some msg => (s, .fail msg, [])
    | none =>
      match validateRoomPresence c true with
      | some msg => (s, .fail msg, [])
      | none => onToggleReady s c)

/-- The `updateClipboard` event as received from socket `cid`. -/
def updateClipboardEvent (cfg : Configuration) (s : ServerState) (cid : Nat)
    (args : List JSValue) :
    Option (ServerState × EventResult Unit × List Emission) :=
  (s.clients.find? (fun c => c.id == cid)).map (fun c =>
    match validateEventArguments [string "Clipboard entry"] args with
    | some msg => (s, .fail msg, [])
    | none =>
      match validateRoomPresence c true with
      | some msg => (s, .fail msg, [])
      | none => onUpdateClipboard cfg s c (asString (args.headD .undefined)))

/-! ### Connection establishment -/

/-- Outcome of a handshake. -/
inductive ConnectResult where
  | refused (errorMessage : String)
  | accepted
deriving DecidableEq, Repr

/-- A freshly initialized session record (`onConnect`'s new-session branch). -/
def freshData (sessionId : String) : VNSyncData :=
  { sessionId := sessionId, username := "", isHost := false, room := none,
    isReady := false, clipboard := [] }

/-- The `connection` handler: the transport registers the socket, the server
counts its address, and `onConnect` runs. `inherited` is the socket `data`
installed by the reconnection middleware (`none` for the untouched empty
object `{}`). A socket carrying a room rejoins it (or is immediately
disconnected when the room is gone and it is not the host); otherwise a new
session id is issued and delivered. -/
def finishConnect (s : ServerState) (cid : Nat) (address : String)
    (inherited : Option VNSyncData) (freshSessionId : String) :
    ServerState × List Emission :=
  let s1 := addAddress s address
  match inherited with
  | some d =>
    let roomName := d.room.getD ""
    if roomName == "" then
      let s2 := { s1 with clients :=
        s1.clients ++ [⟨cid, address, freshData freshSessionId, none⟩] }
      (s2, [Emission.sessionIdMsg cid freshSessionId])
    else if !(roomExistsB s1 roomName) && !d.isHost then
      let s2 := { s1 with clients := s1.clients ++ [⟨cid, address, d, none⟩] }
      discRun (bigFuel s2) s2 (.client cid "server namespace disconnect" 0)
    else
      let s2 := { s1 with clients := s1.clients ++ [⟨cid, address, d, some roomName⟩] }
      emitRoomStateChange s2 roomName
  | none =>
    let s2 := { s1 with clients :=
      s1.clients ++ [⟨cid, address, freshData freshSessionId, none⟩] }
    (s2, [Emission.sessionIdMsg cid freshSessionId])

/-- A handshake: `connectionLimitMiddleware`, then `reconnectionMiddleare`
(ghost consumption, or preemption of a still-active session with the same
session id), then acceptance (`finishConnect`). `freshSessionId` is the
uuid that `onConnect` would generate. -/
def connectStep (cfg : Configuration) (s : ServerState) (cid : Nat)
    (address : String) (authSessionId : Option String) (freshSessionId : String) :
    ServerState × ConnectResult × List Emission :=
  if isAddressBlocked cfg s address then
    (s, .refused "Too many connections from the same address.", [])
  else
    match authSessionId with
    | none =>
      let r := finishConnect s cid address none freshSessionId
      (r.1, .accepted, r.2)
    | some sessionId =>
      if sessionId == "" then
        let r := finishConnect s cid address none freshSessionId
        (r.1, .accepted, r.2)
      else
        match lookupA s.ghostSessions sessionId with
        | some ghostSession =>
          let s1 := { s with ghostSessions := eraseA s.ghostSessions sessionId }
          if !(roomExistsB s1 (ghostSession.data.room.getD "")) then
            (s1, .refused "The room for this session no longer exists.", [])
          else
            let r := finishConnect s1 cid address (some ghostSession.data)
              freshSessionId
            (r.1, .accepted, r.2)
        | none =>
          match getClientBySessionId s sessionId with
          | some existingUser =>
            let inherited := existingUser.data
            let r1 := discRun (bigFuel s) s
              (.client existingUser.id "server namespace disconnect" 0)
            let r2 := finishConnect r1.1 cid address (some inherited)
              freshSessionId
            (r2.1, .accepted, r1.2 ++ r2.2)
          | none =>
            let r := finishConnect s cid address none freshSessionId
            (r.1, .accepted, r.2)

/-! ### Whole-system steps and traces -/

/-- One externally triggered step of the server. -/
inductive Step where
  | connect (cid : Nat) (address : String) (authSessionId : Option String)
      (freshSessionId : String)
  | createRoom (cid : Nat) (args : List JSValue) (roomName : String)
  | joinRoom (cid : Nat) (args : List JSValue)
  | toggleReady (cid : Nat)
  | updateClipboard (cid : Nat) (args : List JSValue)
  | disconnect (cid : Nat) (reason : String) (now : Nat)
  | cleanGhosts (now : Nat)
deriving DecidableEq, Repr

/-- The state after one step (emissions discarded). -/
def applyStep (cfg : Configuration) (s : ServerState) : Step → ServerState
  | .connect cid address auth fresh =>
      (connectStep cfg s cid address auth fresh).1
  | .createRoom cid args roomName =>
      ((createRoomEvent s cid args roomName).map (fun r => r.1)).getD s
  | .joinRoom cid args =>
      ((joinRoomEvent s cid args).map (fun r => r.1)).getD s
  | .toggleReady cid =>
      ((toggleReadyEvent s cid).map (fun r => r.1)).getD s
  | .updateClipboard cid args =>
      ((updateClipboardEvent cfg s cid args).map (fun r => r.1)).getD s
  | .disconnect cid reason now => (disconnectStep s cid reason now).1
  | .cleanGhosts now => (cleanGhostSessions cfg now s).1

/-- The guarantees the source's generators provide for a step's
nondeterministic inputs: socket ids issued by the transport are fresh, and a
generated room name is non-empty and collision-checked against existing
rooms. -/
def StepOK (s : ServerState) : Step → Prop
  | .connect cid _ _ _ => ∀ c ∈ s.clients, c.id ≠ cid
  | .createRoom _ _ roomName => roomExistsB s roomName = false ∧ roomName ≠ ""
  | _ => True

/-- The state after a list of steps from the empty server. -/
def runTrace (cfg : Configuration) (steps : List Step) : ServerState :=
  steps.foldl (applyStep cfg) initialState

/-- The default configuration values of the source. -/
def cfgDefault : Configuration := ⟨5, 50, 30000, 1000⟩

/-! ## Derived observations used in the theorems -/

/-- The connection count currently recorded for an address (0 when absent). -/
def addrCount (s : ServerState) (address : String) : Nat :=
  (lookupA s.addresses address).getD 0

/-- The clipboard of the socket with the given id. -/
def clipboardOf (s : ServerState) (cid : Nat) : List String :=
  ((s.clients.find? (fun c => c.id == cid)).map (fun c => c.data.clipboard)).getD []

/-- Number of currently connected members of a room that hold `isHost`. -/
def hostCount (s : ServerState) (roomName : String) : Nat :=
  ((roomMembers s roomName).filter (fun c => c.data.isHost)).length

/-- The usernames of a room's current members. -/
def roomUsernames (s : ServerState) (roomName : String) : List String :=
  (roomMembers s roomName).map (fun c => c.data.username)

/-- Every current member of the room is ready. -/
def allMembersReady (s : ServerState) (roomName : String) : Bool :=
  (roomMembers s roomName).all (fun c => c.data.isReady)

/-- The `roomReady` notifications among a batch of emissions. -/
def readyEmits (ems : List Emission) : List Emission :=
  ems.filter (fun e => match e with | .roomReady _ => true | _ => false)

/-- Whether a batch of emissions contains a `roomStateChange` for the room. -/
def hasStateChangeFor (ems : List Emission) (roomName : String) : Bool :=
  ems.any (fun e => match e with
    | .roomStateChange r _ _ => r == roomName
    | _ => false)

/-! ## Theorems -/

/-! ### Unfolding and projection lemmas -/

theorem removeAddress_clients (s : ServerState) (a : String) :
    (removeAddress s a).clients = s.clients := by
  unfold removeAddress
  cases lookupA s.addresses a with
  | none => rfl
  | some k => by_cases h : k - 1 = 0 <;> simp [h]

theorem removeAddress_ghosts (s : ServerState) (a : String) :
    (removeAddress s a).ghostSessions = s.ghostSessions := by
  unfold removeAddress
  cases lookupA s.addresses a with
  | none => rfl
  | some k => by_cases h : k - 1 = 0 <;> simp [h]

theorem addAddress_clients (s : ServerState) (a : String) :
    (addAddress s a).clients = s.clients := by
  unfold addAddress
  cases lookupA s.addresses a with
  | none => rfl
  | some k => rfl

theorem addAddress_ghosts (s : ServerState) (a : String) :
    (addAddress s a).ghostSessions = s.ghostSessions := by
  unfold addAddress
  cases lookupA s.addresses a with
  | none => rfl
  | some k => rfl

theorem emitRoomStateChange_fst (s : ServerState) (r : String) :
    (emitRoomStateChange s r).1 = s := rfl

theorem roomMembers_set_ghosts (s : ServerState) (g : List (String × GhostSession))
    (r : String) : roomMembers { s with ghostSessions := g } r = roomMembers s r := rfl

/-- One step of the fueled disconnect interpreter: socket removal. -/
theorem discRun_client_eq (fuel : Nat) (s : ServerState) (cid : Nat)
    (reason : String) (now : Nat) (h : 1 ≤ fuel) :
    discRun fuel s (.client cid reason now) =
      (match s.clients.find? (fun c => c.id == cid) with
       | none => (s, [])
       | some c =>
         let s1 := { s with clients := s.clients.filter (fun x => !(x.id == cid)) }
         let r := discRun (fuel - 1) s1 (.onDis c.data reason now)
         (removeAddress r.1 c.address, r.2)) := by
  cases fuel with
  | zero => omega
  | succ f => simp [discRun]

/-- One step of the fueled disconnect interpreter: `onDisconnect`. -/
theorem discRun_onDis_eq (fuel : Nat) (s : ServerState) (data : VNSyncData)
    (reason : String) (now : Nat) (h : 1 ≤ fuel) :
    discRun fuel s (.onDis data reason now) =
      (if badReasons.contains reason then
        ({ s with ghostSessions := setA s.ghostSessions data.sessionId ⟨now, data⟩ }, [])
      else discRun (fuel - 1) s (.handle data)) := by
  cases fuel with
  | zero => omega
  | succ f => simp [discRun]

/-- One step of the fueled disconnect interpreter: `handleRoomDisconnect`. -/
theorem discRun_handle_eq (fuel : Nat) (s : ServerState) (data : VNSyncData)
    (h : 1 ≤ fuel) :
    discRun fuel s (.handle data) =
      (let roomName := data.room.getD ""
       if roomName == "" || !(roomExistsB s roomName) then (s, [])
       else if data.isHost then
         discRun (fuel - 1) s (.each ((roomMembers s roomName).map (fun c => c.id)) 0)
       else
         let r1 := entireRoomReadyCheck s roomName
         let r2 := emitRoomStateChange r1.1 roomName
         (r2.1, r1.2 ++ r2.2)) := by
  cases fuel with
  | zero => omega
  | succ f => simp [discRun]

/-- One step of the fueled disconnect interpreter: `disconnectSockets`. -/
theorem discRun_each_eq (fuel : Nat) (s : ServerState) (ids : List Nat)
    (now : Nat) (h : 1 ≤ fuel) :
    discRun fuel s (.each ids now) =
      (match ids with
       | [] => (s, [])
       | cid :: rest =>
         let r1 := discRun (fuel - 1) s (.client cid "server namespace disconnect" now)
         let r2 := discRun (fuel - 1) r1.1 (.each rest now)
         (r2.1, r1.2 ++ r2.2)) := by
  cases fuel with
  | zero => omega
  | succ f => simp [discRun]

/-- C8: with a positive configured ceiling, a handshake from a source address
whose connection count has reached `maxConnectionsFromSingleSource` is
refused with the fatal error "Too many connections from the same address."
and the state — session registry, ghost sessions and every address's
counter — is left completely unchanged; a handshake from an address below
the ceiling is never refused by the throttle. -/
theorem C8_connection_throttle (cfg : Configuration) (s : ServerState)
    (address : String) (cid : Nat) (auth : Option String) (fresh : String)
    (hmax : 1 ≤ cfg.maxConnectionsFromSingleSource) :
    (cfg.maxConnectionsFromSingleSource ≤ addrCount s address →
      connectStep cfg s cid address auth fresh =
        (s, ConnectResult.refused "Too many connections from the same address.", [])) ∧
    (addrCount s address < cfg.maxConnectionsFromSingleSource →
      (connectStep cfg s cid address auth fresh).2.1 ≠
        ConnectResult.refused "Too many connections from the same address.") := by
  constructor
  · intro hge
    have hblocked : isAddressBlocked cfg s address = true := by
      unfold isAddressBlocked
      unfold addrCount at hge
      cases h : lookupA s.addresses address with
      | none => rw [h] at hge; simp at hge; omega
      | some k => rw [h] at hge; simp at hge; simp [hge]
    unfold connectStep
    rw [hblocked]
    simp
  · intro hlt
    have hblocked : isAddressBlocked cfg s address = false := by
      unfold isAddressBlocked
      unfold addrCount at hlt
      cases h : lookupA s.addresses address with
      | none => simp
      | some k => rw [h] at hlt; simp at hlt; simp; omega
    unfold connectStep
    rw [hblocked]
    cases auth with
    | none => simp
    | some sid =>
      simp only [Bool.false_eq_true, if_false]
      by_cases hsid : (sid == "") = true
      · simp [hsid]
      · simp only [hsid, if_false]
        cases hg : lookupA s.ghostSessions sid with
        | some g =>
          simp only []
          by_cases hr : (!(roomExistsB { s with ghostSessions := eraseA s.ghostSessions sid } (g.data.room.getD ""))) = true
          · simp [hr]
          · simp [hr]
        | none =>
          cases he : getClientBySessionId s sid with
          | some existing => simp
          | none => simp

/-- Witness for C8 at a concrete ceiling of 1: an address with one recorded
connection is refused and the state is untouched, while a new address is
not refused by the throttle. -/
theorem C8_connection_throttle_witness :
    (connectStep ⟨1, 50, 30000, 1000⟩ ⟨[], [], [("a", 1)]⟩ 0 "a" none "x" =
      (⟨[], [], [("a", 1)]⟩, ConnectResult.refused "Too many connections from the same address.", [])) ∧
    ((connectStep ⟨1, 50, 30000, 1000⟩ ⟨[], [], []⟩ 0 "b" none "x").2.1 ≠
      ConnectResult.refused "Too many connections from the same address.") :=
  ⟨(C8_connection_throttle ⟨1, 50, 30000, 1000⟩ ⟨[], [], [("a", 1)]⟩ "a" 0 none "x"
      (by decide)).1 (by decide),
   (C8_connection_throttle ⟨1, 50, 30000, 1000⟩ ⟨[], [], []⟩ "b" 0 none "x"
      (by decide)).2 (by decide)⟩

/-- A concrete reachable state: socket 0 connected from address "a",
created room "r" under username "user". -/
def stateHostRoom : ServerState :=
  runTrace cfgDefault
    [ .connect 0 "a" none "sidH"
    , .createRoom 0 [JSValue.str "user"] "r" ]

/-- C9 (code bug): the declared argument schema of `updateClipboard` — the
`string` rule — accepts the empty string, but the dispatcher's
`args[key] || undefined` coercion in `validateEventArguments` turns the
falsy `""` into `undefined` before the rule sees it, so a host's
`updateClipboard("")` is rejected with "Clipboard entry should be a
string." even though `""` is a string; a non-empty string passes and a
non-string fails as declared. -/
theorem C9_clipboard_empty_string_rejected :
    ((string "Clipboard entry") (JSValue.str "")).fst = true ∧
    updateClipboardEvent cfgDefault stateHostRoom 0 [JSValue.str ""] =
      some (stateHostRoom, EventResult.fail "Clipboard entry should be a string.", []) ∧
    ((updateClipboardEvent cfgDefault stateHostRoom 0 [JSValue.str "x"]).map
      (fun r => r.2.1)) = some (EventResult.ok ()) ∧
    ((updateClipboardEvent cfgDefault stateHostRoom 0 [JSValue.num 3]).map
      (fun r => r.2.1)) =
      some (EventResult.fail "Clipboard entry should be a string.") := by
  refine ⟨by decide, by decide, by decide, by decide⟩

/-- C10: a session that never joined a room (its `room` is `null`) and
disconnects for an unexpected reason is stored as a GhostSession whose
snapshot still has `room = null`; a later handshake presenting that
session id finds the ghost, falls back to the empty room name, fails the
room-existence check (no room named "" ever exists) and is refused with
the fatal error "The room for this session no longer exists." — the ghost
being consumed rather than the connection resumed or admitted afresh. -/
theorem C10_roomless_ghost_reconnect_refused (s t : ServerState) (cid ncid : Nat)
    (c : Client) (reason : String) (now : Nat) (cfg : Configuration)
    (addr sid fresh : String) (g : GhostSession)
    (hfind : s.clients.find? (fun x => x.id == cid) = some c)
    (hroom : c.data.room = none)
    (hreason : badReasons.contains reason = true)
    (hg : lookupA t.ghostSessions sid = some g)
    (hgroom : g.data.room = none)
    (hnb : isAddressBlocked cfg t addr = false)
    (hsid : sid ≠ "")
    (hnoroom : roomExistsB t "" = false) :
    (disconnectStep s cid reason now).1.ghostSessions =
      setA s.ghostSessions c.data.sessionId ⟨now, c.data⟩ ∧
    connectStep cfg t ncid addr (some sid) fresh =
      ({ t with ghostSessions := eraseA t.ghostSessions sid },
        ConnectResult.refused "The room for this session no longer exists.", []) := by
  constructor
  · unfold disconnectStep
    rw [discRun_client_eq _ _ _ _ _ (by unfold bigFuel; omega), hfind]
    simp only
    rw [discRun_onDis_eq _ _ _ _ _ (by unfold bigFuel; omega), hreason]
    simp [removeAddress_ghosts]
  · unfold connectStep
    rw [hnb]
    simp only [Bool.false_eq_true, if_false]
    have hsid' : (sid == "") = false := by
      simp [hsid]
    rw [hsid']
    simp only [Bool.false_eq_true, if_false]
    rw [hg]
    simp only [hgroom]
    have : roomExistsB { t with ghostSessions := eraseA t.ghostSessions sid }
        ((none : Option String).getD "") = false := by
      unfold roomExistsB
      rw [roomMembers_set_ghosts]
      exact hnoroom
    rw [this]
    simp

/-- Witness for C10: a fresh roomless socket drops with "transport close";
the resulting state holds a `room = null` ghost, and reconnecting with its
session id is refused with the exact fatal message. -/
theorem C10_roomless_ghost_reconnect_refused_witness :
    (disconnectStep (runTrace cfgDefault [.connect 0 "a" none "sid0"]) 0
        "transport close" 5).1.ghostSessions =
      setA (runTrace cfgDefault [.connect 0 "a" none "sid0"]).ghostSessions
        "sid0" ⟨5, freshData "sid0"⟩ ∧
    connectStep cfgDefault
        (runTrace cfgDefault [.connect 0 "a" none "sid0", .disconnect 0 "transport close" 5])
        1 "a" (some "sid0") "sid1" =
      ({ runTrace cfgDefault [.connect 0 "a" none "sid0", .disconnect 0 "transport close" 5] with
          ghostSessions := eraseA (runTrace cfgDefault
            [.connect 0 "a" none "sid0", .disconnect 0 "transport close" 5]).ghostSessions "sid0" },
        ConnectResult.refused "The room for this session no longer exists.", []) :=
  C10_roomless_ghost_reconnect_refused
    (runTrace cfgDefault [.connect 0 "a" none "sid0"])
    (runTrace cfgDefault [.connect 0 "a" none "sid0", .disconnect 0 "transport close" 5])
    0 1 ⟨0, "a", freshData "sid0", none⟩ "transport close" 5 cfgDefault "a" "sid0" "sid1"
    ⟨5, freshData "sid0"⟩ (by decide) (by decide) (by decide) (by decide) (by decide)
    (by decide) (by decide) (by decide)

/-- Updating a socket's data by id commutes with looking the socket up. -/
theorem find?_updClient (s : ServerState) (cid : Nat) (f : Client → Client)
    (hid : ∀ c, (f c).id = c.id) :
    (updClient s cid f).clients.find? (fun c => c.id == cid) =
      (s.clients.find? (fun c => c.id == cid)).map
        (fun c => if c.id == cid then f c else c) := by
  unfold updClient
  rw [List.find?_map]
  have hp : ((fun c => c.id == cid) ∘ fun c => if (c.id == cid) = true then f c else c) =
      (fun c : Client => c.id == cid) := by
    funext c
    by_cases h : (c.id == cid) = true
    · have h' : c.id = cid := by simpa using h
      simp [h', hid]
    · have h' : ¬ c.id = cid := by simpa using h
      simp [h']
  rw [hp]

/-- C6: a successful `updateClipboard` by a room's host prepends the entry
and truncates to `maxClipboardEntries`: the history length never exceeds
the maximum (hence it never does over any sequence of successful calls),
below the cap the call is a pure prepend preserving newest-first order, and
on a full history (with a positive cap) the oldest entry alone is evicted. -/
theorem C6_clipboard_bounded (cfg : Configuration) (s : ServerState) (c : Client)
    (e : String)
    (hfind : s.clients.find? (fun x => x.id == c.id) = some c)
    (hhost : c.data.isHost = true)
    (hroom : c.data.room.isSome = true)
    (hne : e ≠ "") :
    ∃ s' ems, updateClipboardEvent cfg s c.id [JSValue.str e] =
        some (s', EventResult.ok (), ems) ∧
      clipboardOf s' c.id = (e :: c.data.clipboard).take cfg.maxClipboardEntries ∧
      (clipboardOf s' c.id).length ≤ cfg.maxClipboardEntries ∧
      (c.data.clipboard.length < cfg.maxClipboardEntries →
        clipboardOf s' c.id = e :: c.data.clipboard) ∧
      (c.data.clipboard.length = cfg.maxClipboardEntries →
        1 ≤ cfg.maxClipboardEntries →
        clipboardOf s' c.id = e :: c.data.clipboard.dropLast) := by
  have hval : validateEventArguments [string "Clipboard entry"] [JSValue.str e] = none := by
    unfold validateEventArguments validateEventArguments
    simp [string, jsOrUndefined, JSValue.truthy, hne]
  have hpres : validateRoomPresence c true = none := by
    unfold validateRoomPresence
    simp [hroom]
  have hrun : updateClipboardEvent cfg s c.id [JSValue.str e] =
      some (onUpdateClipboard cfg s c e) := by
    unfold updateClipboardEvent
    rw [hfind]
    simp only [Option.map_some, hval]
    simp [hpres, asString]
  have hok : (onUpdateClipboard cfg s c e).2.1 = EventResult.ok () := by
    unfold onUpdateClipboard
    simp [hhost]
  refine ⟨(onUpdateClipboard cfg s c e).1, (onUpdateClipboard cfg s c e).2.2, ?_, ?_⟩
  · rw [hrun, ← hok]
  · have hclip : clipboardOf (onUpdateClipboard cfg s c e).1 c.id =
        (e :: c.data.clipboard).take cfg.maxClipboardEntries := by
      unfold onUpdateClipboard
      simp only [hhost, Bool.not_true, Bool.false_eq_true, if_false]
      unfold clipboardOf
      rw [emitRoomStateChange_fst]
      rw [find?_updClient s c.id]
      · rw [hfind]
        simp
      · intro x
        rfl
    refine ⟨hclip, ?_, ?_, ?_⟩
    · rw [hclip]
      simp only [List.length_take]
      omega
    · intro hlt
      rw [hclip]
      apply List.take_of_length_le
      simp only [List.length_cons]
      omega
    · intro hfull hpos
      rw [hclip]
      have hmax : cfg.maxClipboardEntries = (cfg.maxClipboardEntries - 1) + 1 := by omega
      rw [hmax, List.take_succ_cons]
      congr 1
      rw [List.dropLast_eq_take, hfull]

/-- Witness for C6: the host of `stateHostRoom` posts "x" onto an empty
history with the default cap of 50. -/
theorem C6_clipboard_bounded_witness :
    ∃ s' ems, updateClipboardEvent cfgDefault stateHostRoom 0 [JSValue.str "x"] =
        some (s', EventResult.ok (), ems) ∧
      clipboardOf s' 0 = (["x"] : List String).take 50 ∧
      (clipboardOf s' 0).length ≤ 50 ∧
      (([] : List String).length < 50 → clipboardOf s' 0 = ["x"]) ∧
      (([] : List String).length = 50 → 1 ≤ 50 →
        clipboardOf s' 0 = "x" :: ([] : List String).dropLast) :=
  C6_clipboard_bounded cfgDefault stateHostRoom
    ⟨0, "a", ⟨"sidH", "user", true, some "r", false, []⟩, some "r"⟩ "x"
    (by decide) (by decide) (by decide) (by decide)

/-! ### Ready-consensus infrastructure -/

theorem foldl_and_eq_all (l : List Client) (b : Bool) :
    l.foldl (fun acc x => acc && x.data.isReady) b =
      (b && l.all (fun x => x.data.isReady)) := by
  induction l generalizing b with
  | nil => simp
  | cons a t ih => simp [List.foldl_cons, ih, Bool.and_assoc]

/-- Room membership commutes with a pointwise client transformation that
does not move sockets between rooms. -/
theorem roomMembers_map (s : ServerState) (g : Client → Client) (r : String)
    (hj : ∀ c, (g c).joined = c.joined) :
    roomMembers { s with clients := s.clients.map g } r =
      (roomMembers s r).map g := by
  unfold roomMembers
  simp only [List.filter_map]
  congr 1
  apply List.filter_congr
  intro x _
  simp [Function.comp, hj]

/-- `find?` of a predicate with a unique witness. -/
theorem find?_unique {α : Type} (l : List α) (p : α → Bool) (h : α)
    (hmem : h ∈ l) (hp : p h = true) (huniq : ∀ x ∈ l, p x = true → x = h) :
    l.find? p = some h := by
  induction l with
  | nil => cases hmem
  | cons a t ih =>
    by_cases ha : p a = true
    · have : a = h := huniq a (List.mem_cons_self a t) ha
      subst this
      simp [List.find?_cons, ha]
    · have hne : a ≠ h := fun e => ha (e ▸ hp)
      have hmem' : h ∈ t := by
        rcases List.mem_cons.mp hmem with h1 | h1
        · exact absurd h1.symm hne
        · exact h1
      rw [List.find?_cons]
      have ha' : p a = false := Bool.eq_false_iff.mpr ha
      simp only [ha', Bool.false_eq_true, if_false]
      exact ih hmem' (fun x hx hpx => huniq x (List.mem_cons_of_mem a hx) hpx)

/-- `entireRoomReadyCheck` on a room whose members are unanimously ready and
whose (unique) connected host is `h`: every member's readiness is reset and
exactly one `roomReady` goes to the host's socket. -/
theorem entireRoomReadyCheck_allReady (s : ServerState) (r : String) (h : Client)
    (hne : roomMembers s r ≠ [])
    (hall : ∀ m ∈ roomMembers s r, m.data.isReady = true)
    (hh : h ∈ roomMembers s r) (hhost : h.data.isHost = true)
    (huniq : ∀ m ∈ roomMembers s r, m.data.isHost = true → m = h) :
    entireRoomReadyCheck s r =
      ({ s with clients := s.clients.map (fun c =>
          if c.joined == some r then { c with data := { c.data with isReady := false } }
          else c) }, [Emission.roomReady h.id]) := by
  unfold entireRoomReadyCheck
  rcases hm : roomMembers s r with _ | ⟨m, rest⟩
  · exact absurd hm hne
  · rw [hm] at hall hh huniq
    simp only []
    have hfold : (m :: rest).foldl (fun acc x => acc && x.data.isReady)
        m.data.isReady = true := by
      rw [foldl_and_eq_all]
      have h1 : m.data.isReady = true := hall m (List.mem_cons_self m rest)
      have h2 : (m :: rest).all (fun x => x.data.isReady) = true :=
        List.all_eq_true.mpr (fun x hx => hall x hx)
      rw [h1, h2]
      rfl
    rw [hfold]
    simp only [if_true]
    rw [find?_unique (m :: rest) (fun x => x.data.isHost) h hh hhost huniq]

/-- After `entireRoomReadyCheck` on an existing room, the room is never left
with every member ready: some member's flag is false. -/
theorem entireRoomReadyCheck_not_all_ready (s : ServerState) (r : String)
    (hex : roomMembers s r ≠ []) :
    ∃ m ∈ roomMembers (entireRoomReadyCheck s r).1 r, m.data.isReady = false := by
  unfold entireRoomReadyCheck
  rcases hm : roomMembers s r with _ | ⟨m, rest⟩
  · exact absurd hm hex
  · simp only []
    rw [foldl_and_eq_all]
    by_cases hall : ((m :: rest).all (fun x => x.data.isReady)) = true
    · have h1 : m.data.isReady = true :=
        List.all_eq_true.mp hall m (List.mem_cons_self m rest)
      rw [h1, hall]
      simp only [Bool.and_self, if_true]
      have hmm : roomMembers { s with clients := s.clients.map (fun c =>
          if c.joined == some r then { c with data := { c.data with isReady := false } }
          else c) } r = (roomMembers s r).map (fun c =>
          if c.joined == some r then { c with data := { c.data with isReady := false } }
          else c) := by
        apply roomMembers_map
        intro c
        by_cases hc : (c.joined == some r) = true <;> simp [hc]
      have hmem : m ∈ roomMembers s r := by rw [hm]; exact List.mem_cons_self m rest
      have hjm : (m.joined == some r) = true := by
        have := List.mem_filter.mp (show m ∈ s.clients.filter
          (fun c => c.joined == some r) from hmem)
        exact this.2
      cases hfind : (m :: rest).find? (fun x => x.data.isHost) with
      | none =>
        simp only [hfind]
        refine ⟨(fun c => if c.joined == some r then
          { c with data := { c.data with isReady := false } } else c) m, ?_, ?_⟩
        · rw [hmm]
          exact List.mem_map_of_mem _ hmem
        · simp [hjm]
      | some host =>
        simp only [hfind]
        refine ⟨(fun c => if c.joined == some r then
          { c with data := { c.data with isReady := false } } else c) m, ?_, ?_⟩
        · rw [hmm]
          exact List.mem_map_of_mem _ hmem
        · simp [hjm]
    · rcases List.all_eq_false.mp (Bool.eq_false_iff.mpr hall) with ⟨x, hx, hpx⟩
      by_cases hmr : m.data.isReady = true
      · rw [hmr]
        simp only [Bool.true_and, hall]
        simp only [Bool.false_eq_true, if_false]
        exact ⟨x, by rw [hm]; exact hx, by simpa using hpx⟩
      · have : m.data.isReady = false := Bool.eq_false_iff.mpr hmr
        rw [this]
        simp only [Bool.false_and, Bool.false_eq_true, if_false]
        exact ⟨x, by rw [hm]; exact hx, by simpa using hpx⟩

theorem roomMembers_updClient (s : ServerState) (cid : Nat) (f : Client → Client)
    (r : String) (hj : ∀ x, (f x).joined = x.joined) :
    roomMembers (updClient s cid f) r =
      (roomMembers s r).map (fun x => if (x.id == cid) = true then f x else x) := by
  unfold updClient
  apply roomMembers_map
  intro x
  by_cases hx : (x.id == cid) = true <;> simp [hx, hj]

/-- C5: when a room contains its (unique) connected host and a `toggleReady`
completes unanimity — every other member ready and the toggler flipping on,
which covers the lone-host case with no other members — every member's
`isReady` is reset to false and exactly one `roomReady` notification is
emitted, addressed to the host's socket alone (the state broadcast is a
separate `roomStateChange`, so the ready notification is not broadcast). -/
theorem C5_unanimous_reset_and_notify (s : ServerState) (c h : Client) (r : String)
    (hfind : s.clients.find? (fun x => x.id == c.id) = some c)
    (hroom : c.data.room = some r)
    (hjoin : c.joined = some r)
    (hcready : c.data.isReady = false)
    (hall : ∀ m ∈ roomMembers s r, m.id ≠ c.id → m.data.isReady = true)
    (hhmem : h ∈ roomMembers s r) (hhost : h.data.isHost = true)
    (huniq : ∀ m ∈ roomMembers s r, m.data.isHost = true → m = h)
    (hids : (s.clients.map (fun x => x.id)).Nodup) :
    ∃ s' ems, toggleReadyEvent s c.id = some (s', EventResult.ok (), ems) ∧
      (∀ m ∈ roomMembers s' r, m.data.isReady = false) ∧
      readyEmits ems = [Emission.roomReady h.id] := by
  have hcmem : c ∈ s.clients := List.mem_of_find?_eq_some hfind
  have hcmemr : c ∈ roomMembers s r := List.mem_filter.mpr ⟨hcmem, by simp [hjoin]⟩
  -- the flipped state
  set fFlip : Client → Client :=
    (fun x => { x with data := { x.data with isReady := !x.data.isReady } }) with hfFlip
  set g : Client → Client :=
    (fun x => if (x.id == c.id) = true then fFlip x else x) with hg
  have hm1 : roomMembers (updClient s c.id fFlip) r = (roomMembers s r).map g := by
    rw [roomMembers_updClient]
    intro x
    rfl
  have hmemeq : ∀ m ∈ roomMembers s r, m.id = c.id → m = c := by
    intro m hm hid
    exact List.inj_on_of_nodup_map hids (List.mem_filter.mp hm).1 hcmem hid
  have hallready : ∀ m' ∈ roomMembers (updClient s c.id fFlip) r,
      m'.data.isReady = true := by
    intro m' hm'
    rw [hm1] at hm'
    rcases List.mem_map.mp hm' with ⟨m, hm, rfl⟩
    by_cases hid : (m.id == c.id) = true
    · have hmc : m = c := hmemeq m hm (by simpa using hid)
      subst hmc
      simp [hg, hid, hfFlip, hcready]
    · simp only [hg, hid, Bool.false_eq_true, if_false]
      exact hall m hm (by simpa using hid)
  have hgh : ∀ x, (g x).data.isHost = x.data.isHost := by
    intro x
    by_cases hx : x.id = c.id <;> simp [hg, hfFlip, hx]
  have hgid : ∀ x, (g x).id = x.id := by
    intro x
    by_cases hx : x.id = c.id <;> simp [hg, hfFlip, hx]
  have hgjoined : ∀ x, (g x).joined = x.joined := by
    intro x
    by_cases hx : x.id = c.id <;> simp [hg, hfFlip, hx]
  have hEIRC := entireRoomReadyCheck_allReady (updClient s c.id fFlip) r (g h)
    (by
      rw [hm1]
      intro hnil
      exact absurd (List.mem_map_of_mem g hhmem) (by rw [hnil]; simp))
    hallready
    (by rw [hm1]; exact List.mem_map_of_mem g hhmem)
    (by rw [hgh]; exact hhost)
    (by
      intro x hx hxhost
      rw [hm1] at hx
      rcases List.mem_map.mp hx with ⟨m, hm, rfl⟩
      rw [hgh] at hxhost
      rw [huniq m hm hxhost])
  have hev : toggleReadyEvent s c.id = some (onToggleReady s c) := by
    unfold toggleReadyEvent
    rw [hfind]
    simp [validateEventArguments, validateRoomPresence, hroom]
  have hot : onToggleReady s c =
      ((entireRoomReadyCheck (updClient s c.id fFlip) r).1, EventResult.ok (),
        (entireRoomReadyCheck (updClient s c.id fFlip) r).2 ++
        (emitRoomStateChange (entireRoomReadyCheck (updClient s c.id fFlip) r).1 r).2) := by
    unfold onToggleReady
    rw [hroom]
    rfl
  refine ⟨_, _, by rw [hev, hot], ?_, ?_⟩
  · -- after the reset, every member of the room has isReady = false
    rw [hEIRC]
    intro m hm
    have : roomMembers { updClient s c.id fFlip with
        clients := (updClient s c.id fFlip).clients.map (fun cc =>
          if cc.joined == some r then { cc with data := { cc.data with isReady := false } }
          else cc) } r =
        (roomMembers (updClient s c.id fFlip) r).map (fun cc =>
          if cc.joined == some r then { cc with data := { cc.data with isReady := false } }
          else cc) := by
      apply roomMembers_map
      intro cc
      by_cases hcc : (cc.joined == some r) = true <;> simp [hcc]
    rw [this] at hm
    rcases List.mem_map.mp hm with ⟨m0, hm0, rfl⟩
    have hj0 : (m0.joined == some r) = true := (List.mem_filter.mp hm0).2
    simp [hj0]
  · rw [hEIRC]
    simp only [hgid]
    simp [readyEmits, emitRoomStateChange]

/-- Witness for C5: the lone host of `stateHostRoom` toggles on; this is
instantly unanimous, the flag resets and exactly one `roomReady` reaches
socket 0. -/
theorem C5_unanimous_reset_and_notify_witness :
    ∃ s' ems, toggleReadyEvent stateHostRoom 0 = some (s', EventResult.ok (), ems) ∧
      (∀ m ∈ roomMembers s' "r", m.data.isReady = false) ∧
      readyEmits ems = [Emission.roomReady 0] :=
  C5_unanimous_reset_and_notify stateHostRoom
    ⟨0, "a", ⟨"sidH", "user", true, some "r", false, []⟩, some "r"⟩
    ⟨0, "a", ⟨"sidH", "user", true, some "r", false, []⟩, some "r"⟩ "r"
    (by decide) (by decide) (by decide) (by decide)
    (by decide) (by decide) (by decide) (by decide) (by decide)

/-! ### Shape-level reasoning about the disconnect cascade

The cascade removes sockets and may flip `isReady` flags of remaining room
members, but never changes a surviving socket's identity, joined room,
`room` field, username or hostness. `shape` records exactly those
cascade-invariant projections. -/

/-- The cascade-invariant projections of a client:
id, joined, room, username, isHost. -/
def shape (c : Client) : Nat × Option String × Option String × String × Bool :=
  (c.id, c.joined, c.data.room, c.data.username, c.data.isHost)

/-- The shapes of all connected sockets. -/
def shapes (s : ServerState) : List (Nat × Option String × Option String × String × Bool) :=
  s.clients.map shape

theorem filter_map_shape (l : List Client) (p : Client → Bool)
    (q : Nat × Option String × Option String × String × Bool → Bool)
    (hpq : ∀ x, p x = q (shape x)) :
    (l.filter p).map shape = (l.map shape).filter q := by
  rw [List.filter_map]
  congr 1
  apply List.filter_congr
  intro x _
  simpa [Function.comp] using hpq x

/-- Room existence read off the shapes. -/
theorem roomExistsB_shapes (s : ServerState) (r : String) :
    roomExistsB s r = !((shapes s).filter (fun t => t.2.1 == some r)).isEmpty := by
  unfold roomExistsB roomMembers shapes
  rw [← filter_map_shape s.clients (fun c => c.joined == some r)
    (fun t => t.2.1 == some r) (fun x => rfl)]
  cases s.clients.filter (fun c => c.joined == some r) <;> simp

/-- Room membership at shape level. -/
theorem roomMembers_map_shape (s : ServerState) (r : String) :
    (roomMembers s r).map shape = (shapes s).filter (fun t => t.2.1 == some r) := by
  unfold roomMembers shapes
  exact filter_map_shape s.clients (fun c => c.joined == some r)
    (fun t => t.2.1 == some r) (fun x => rfl)

theorem shape_reset (r : String) (c : Client) :
    shape (if c.joined == some r then
      { c with data := { c.data with isReady := false } } else c) = shape c := by
  by_cases hc : (c.joined == some r) = true <;> simp [hc, shape]

/-- `entireRoomReadyCheck` only flips readiness flags: shapes, ghost
sessions and address counters are untouched. -/
theorem entireRoomReadyCheck_shapes (s : ServerState) (r : String) :
    shapes (entireRoomReadyCheck s r).1 = shapes s ∧
    (entireRoomReadyCheck s r).1.ghostSessions = s.ghostSessions ∧
    (entireRoomReadyCheck s r).1.addresses = s.addresses := by
  unfold entireRoomReadyCheck
  rcases hm : roomMembers s r with _ | ⟨m, rest⟩
  · exact ⟨rfl, rfl, rfl⟩
  · simp only []
    by_cases hfold : ((m :: rest).foldl (fun acc x => acc && x.data.isReady)
        m.data.isReady) = true
    · rw [hfold]
      simp only [if_true]
      have hs2 : shapes { s with clients := s.clients.map (fun c =>
          if c.joined == some r then { c with data := { c.data with isReady := false } }
          else c) } = shapes s := by
        unfold shapes
        simp only [List.map_map]
        apply List.map_congr_left
        intro x _
        exact shape_reset r x
      cases hfind : (m :: rest).find? (fun x => x.data.isHost) with
      | none => exact ⟨hs2, by trivial, by trivial⟩
      | some host => exact ⟨hs2, by trivial, by trivial⟩
    · have : ((m :: rest).foldl (fun acc x => acc && x.data.isReady)
          m.data.isReady) = false := Bool.eq_false_iff.mpr hfold
      rw [this]
      simp only [Bool.false_eq_true, if_false]
      exact ⟨by trivial, by trivial, by trivial⟩

/-- A non-host's `handleRoomDisconnect` never adds or removes sockets and
never touches the ghost store. -/
theorem discRun_handle_nonhost (fuel : Nat) (s : ServerState) (data : VNSyncData)
    (hnh : data.isHost = false) (hfuel : 1 ≤ fuel) :
    shapes (discRun fuel s (.handle data)).1 = shapes s ∧
    (discRun fuel s (.handle data)).1.ghostSessions = s.ghostSessions := by
  rw [discRun_handle_eq _ _ _ hfuel]
  simp only []
  by_cases h1 : ((data.room.getD "" == "") ||
      !(roomExistsB s (data.room.getD ""))) = true
  · simp only [h1, if_true]
    exact ⟨by trivial, by trivial⟩
  · have h1' : ((data.room.getD "" == "") ||
        !(roomExistsB s (data.room.getD ""))) = false := Bool.eq_false_iff.mpr h1
    rw [h1']
    simp only [Bool.false_eq_true, if_false, hnh]
    have he := entireRoomReadyCheck_shapes s (data.room.getD "")
    exact ⟨he.1, he.2.1⟩

/-- An expected disconnect of a non-host socket: at shape level exactly that
socket disappears, and the ghost store is untouched. -/
theorem discRun_client_nonhost (fuel : Nat) (s : ServerState) (cid : Nat)
    (reason : String) (now : Nat)
    (hexp : badReasons.contains reason = false)
    (hnh : ∀ x ∈ s.clients, x.id = cid → x.data.isHost = false)
    (hfuel : 3 ≤ fuel) :
    shapes (discRun fuel s (.client cid reason now)).1 =
      (s.clients.filter (fun x => !(x.id == cid))).map shape ∧
    (discRun fuel s (.client cid reason now)).1.ghostSessions =
      s.ghostSessions := by
  rw [discRun_client_eq _ _ _ _ _ (by omega)]
  cases hf : s.clients.find? (fun x => x.id == cid) with
  | none =>
    simp only []
    constructor
    · unfold shapes
      congr 1
      symm
      apply List.filter_eq_self.mpr
      intro x hx
      have := List.find?_eq_none.mp hf x hx
      simpa using this
    · trivial
  | some c =>
    simp only []
    rw [discRun_onDis_eq _ _ _ _ _ (by omega)]
    rw [hexp]
    simp only [Bool.false_eq_true, if_false]
    have hch : c.data.isHost = false :=
      hnh c (List.mem_of_find?_eq_some hf) (by simpa using List.find?_some hf)
    have hh := discRun_handle_nonhost (fuel - 1 - 1)
      { s with clients := s.clients.filter (fun x => !(x.id == cid)) }
      c.data hch (by omega)
    constructor
    · unfold shapes at hh ⊢
      rw [removeAddress_clients]
      exact hh.1
    · rw [removeAddress_ghosts]
      exact hh.2

/-- `disconnectSockets` over a list of non-host socket ids: at shape level
exactly the listed sockets disappear, and the ghost store is untouched. -/
theorem discRun_each_nonhost (ids : List Nat) (fuel : Nat) (s : ServerState)
    (now : Nat)
    (hnh : ∀ cid ∈ ids, ∀ x ∈ s.clients, x.id = cid → x.data.isHost = false)
    (hfuel : ids.length + 4 ≤ fuel) :
    shapes (discRun fuel s (.each ids now)).1 =
      (s.clients.filter (fun x => !(ids.contains x.id))).map shape ∧
    (discRun fuel s (.each ids now)).1.ghostSessions = s.ghostSessions := by
  induction ids generalizing fuel s with
  | nil =>
    rw [discRun_each_eq _ _ _ _ (by omega)]
    simp only []
    constructor
    · unfold shapes
      congr 1
      symm
      apply List.filter_eq_self.mpr
      intro x _
      simp
    · trivial
  | cons cid rest ih =>
    rw [discRun_each_eq _ _ _ _ (by omega)]
    simp only []
    have hcl := discRun_client_nonhost (fuel - 1) s cid "server namespace disconnect"
      now (by decide)
      (fun x hx hxid => hnh cid (List.mem_cons_self cid rest) x hx hxid)
      (by simp at hfuel; omega)
    set s1 := (discRun (fuel - 1) s (.client cid "server namespace disconnect" now)).1
      with hs1
    have hmemsh : ∀ x ∈ s1.clients, ∃ y, y ∈ s.clients ∧ (y.id == cid) = false ∧
        shape y = shape x := by
      intro x hx
      have : shape x ∈ shapes s1 := List.mem_map_of_mem shape hx
      rw [hcl.1] at this
      rcases List.mem_map.mp this with ⟨y, hy, hsy⟩
      have hy' := List.mem_filter.mp hy
      exact ⟨y, hy'.1, by simpa using hy'.2, hsy⟩
    have ihap := ih (fuel - 1) s1
      (by
        intro cid' hcid' x hx hxid
        rcases hmemsh x hx with ⟨y, hy, _, hsy⟩
        have hyid : y.id = x.id := congrArg (fun t => t.1) hsy
        have hyhost : y.data.isHost = x.data.isHost :=
          congrArg (fun t => t.2.2.2.2) hsy
        rw [← hyhost]
        exact hnh cid' (List.mem_cons_of_mem cid hcid') y hy (by omega))
      (by simp at hfuel ⊢; omega)
    constructor
    · rw [ihap.1]
      rw [filter_map_shape s1.clients (fun x => !(rest.contains x.id))
        (fun t => !(rest.contains t.1)) (fun x => rfl)]
      have hcl1 : List.map shape s1.clients =
          List.map shape (List.filter (fun x => !(x.id == cid)) s.clients) := hcl.1
      rw [hcl1]
      rw [← filter_map_shape (s.clients.filter (fun x => !(x.id == cid)))
        (fun x => !(rest.contains x.id)) (fun t => !(rest.contains t.1)) (fun x => rfl)]
      rw [List.filter_filter]
      congr 1
      apply List.filter_congr
      intro x _
      simp only [List.contains_cons]
      cases hxc : x.id == cid <;> cases hxr : rest.contains x.id <;> simp_all
    · rw [ihap.2, hcl.2]

theorem roomMembers_removeAddress (s : ServerState) (a : String) (r : String) :
    roomMembers (removeAddress s a) r = roomMembers s r := by
  unfold roomMembers
  rw [removeAddress_clients]

theorem roomExistsB_eq_of_shapes (s t : ServerState) (r : String)
    (h : shapes s = shapes t) : roomExistsB s r = roomExistsB t r := by
  rw [roomExistsB_shapes, roomExistsB_shapes, h]

/-- C7: an expected disconnect is finalized immediately. If the departing
socket is the room's host (every other member a non-host), the room ceases
to exist and every member of the room — in particular every other current
member — is force-disconnected. If it is a non-host member with company,
only that socket is removed (at shape level nothing else changes), the room
survives, the ready consensus is re-evaluated (the room is not left
all-ready) and a `roomStateChange` is rebroadcast to the room. -/
theorem C7_expected_disconnect_finalizes (s : ServerState) (c : Client)
    (r : String) (reason : String) (now : Nat)
    (hfind : s.clients.find? (fun x => x.id == c.id) = some c)
    (hjoin : c.joined = some r)
    (hroom : c.data.room = some r)
    (hr : r ≠ "")
    (hexp : badReasons.contains reason = false)
    (hids : (s.clients.map (fun x => x.id)).Nodup) :
    ((c.data.isHost = true ∧
      (∀ m ∈ roomMembers s r, m.id ≠ c.id → m.data.isHost = false)) →
      roomExistsB (disconnectStep s c.id reason now).1 r = false ∧
      (∀ m ∈ roomMembers s r, ∀ x ∈ (disconnectStep s c.id reason now).1.clients,
        x.id ≠ m.id)) ∧
    ((c.data.isHost = false ∧ (∃ m ∈ roomMembers s r, m.id ≠ c.id)) →
      shapes (disconnectStep s c.id reason now).1 =
        (s.clients.filter (fun x => !(x.id == c.id))).map shape ∧
      roomExistsB (disconnectStep s c.id reason now).1 r = true ∧
      (∃ m ∈ roomMembers (disconnectStep s c.id reason now).1 r,
        m.data.isReady = false) ∧
      hasStateChangeFor (disconnectStep s c.id reason now).2 r = true) := by
  have hrB : (r == "") = false := by simp [hr]
  have hstep : disconnectStep s c.id reason now =
      (let r0 := discRun (bigFuel s - 2)
        { s with clients := s.clients.filter (fun x => !(x.id == c.id)) }
        (.handle c.data)
       (removeAddress r0.1 c.address, r0.2)) := by
    unfold disconnectStep
    rw [discRun_client_eq _ _ _ _ _ (by unfold bigFuel; omega), hfind]
    simp only []
    rw [discRun_onDis_eq _ _ _ _ _ (by unfold bigFuel; omega), hexp]
    simp only [Bool.false_eq_true, if_false]
    rw [show bigFuel s - 1 - 1 = bigFuel s - 2 from by omega]
  set s1 : ServerState :=
    { s with clients := s.clients.filter (fun x => !(x.id == c.id)) } with hs1def
  have hmem_s1 : ∀ m, m ∈ roomMembers s r → m.id ≠ c.id → m ∈ roomMembers s1 r := by
    intro m hm hne
    have hm' := List.mem_filter.mp hm
    exact List.mem_filter.mpr
      ⟨List.mem_filter.mpr ⟨hm'.1, by simp [hne]⟩, hm'.2⟩
  have hmem_s1' : ∀ m, m ∈ roomMembers s1 r → m ∈ roomMembers s r ∧ m.id ≠ c.id := by
    intro m hm
    have hm' := List.mem_filter.mp hm
    have hm'' := List.mem_filter.mp hm'.1
    refine ⟨List.mem_filter.mpr ⟨hm''.1, hm'.2⟩, ?_⟩
    have := hm''.2
    simpa using this
  have hhandle_eq : discRun (bigFuel s - 2) s1 (.handle c.data) =
      (if (r == "") || !(roomExistsB s1 r) then (s1, [])
       else if c.data.isHost then
         discRun (bigFuel s - 3) s1 (.each ((roomMembers s1 r).map (fun x => x.id)) 0)
       else
         let r1 := entireRoomReadyCheck s1 r
         let r2 := emitRoomStateChange r1.1 r
         (r2.1, r1.2 ++ r2.2)) := by
    rw [discRun_handle_eq _ _ _ (by unfold bigFuel; omega)]
    simp only [hroom, Option.getD_some]
    rw [show bigFuel s - 2 - 1 = bigFuel s - 3 from by omega]
  constructor
  · rintro ⟨hhost, hothers⟩
    by_cases hex : roomExistsB s1 r = true
    · -- other members remain: the host departure tears them all down
      have hcascade := discRun_each_nonhost ((roomMembers s1 r).map (fun x => x.id))
        (bigFuel s - 3) s1 0
        (by
          intro cid' hcid' x hx hxid
          rcases List.mem_map.mp hcid' with ⟨m, hm, rfl⟩
          rcases hmem_s1' m hm with ⟨hmr, hmne⟩
          have hxs : x ∈ s.clients := (List.mem_filter.mp hx).1
          have hxm : x = m := List.inj_on_of_nodup_map hids hxs
            (List.mem_filter.mp hmr).1 hxid
          rw [hxm]
          exact hothers m hmr hmne)
        (by
          have h1 : ((roomMembers s1 r).map (fun x => x.id)).length ≤
              s.clients.length := by
            rw [List.length_map]
            calc (roomMembers s1 r).length ≤ s1.clients.length :=
                  List.length_filter_le _ _
              _ ≤ s.clients.length := List.length_filter_le _ _
          unfold bigFuel
          omega)
      rw [hstep, hhandle_eq]
      simp only [hrB, hex, Bool.not_true, Bool.or_false, Bool.false_eq_true,
        if_false, hhost, if_true]
      set ids := (roomMembers s1 r).map (fun x => x.id) with hidsdef
      set s2 := (discRun (bigFuel s - 3) s1 (.each ids 0)).1 with hs2def
      have hsh : shapes (removeAddress s2 c.address) =
          (s1.clients.filter (fun x => !(ids.contains x.id))).map shape := by
        unfold shapes
        rw [removeAddress_clients]
        exact hcascade.1
      constructor
      · rw [roomExistsB_shapes]
        rw [hsh]
        rw [filter_map_shape _ (fun x => !(ids.contains x.id))
          (fun t => !(ids.contains t.1)) (fun x => rfl)] at hsh ⊢
        have : ((s1.clients.map shape).filter (fun t => !(ids.contains t.1))).filter
            (fun t => t.2.1 == some r) = [] := by
          rw [List.filter_filter]
          apply List.filter_eq_nil_iff.mpr
          intro t ht
          rcases List.mem_map.mp ht with ⟨y, hy, rfl⟩
          by_cases hyr : (y.joined == some r) = true
          · have hymem : y ∈ roomMembers s1 r := List.mem_filter.mpr ⟨hy, hyr⟩
            have hin : ids.contains y.id = true := by
              have : y.id ∈ ids := by
                rw [hidsdef]
                exact List.mem_map_of_mem _ hymem
              exact List.elem_eq_true_of_mem this
            simp only [shape]
            intro hcontra
            rcases Bool.and_eq_true_iff.mp hcontra with ⟨_, h2⟩
            rw [hin] at h2
            simp at h2
          · simp only [shape]
            intro hcontra
            rcases Bool.and_eq_true_iff.mp hcontra with ⟨h1, h2⟩
            exact absurd h1 (by simpa using hyr)
        rw [this]
        rfl
      · intro m hm x hx
        have hxs : shape x ∈ shapes (removeAddress s2 c.address) :=
          List.mem_map_of_mem shape hx
        rw [hsh] at hxs
        rcases List.mem_map.mp hxs with ⟨y, hy, hsy⟩
        have hyid : y.id = x.id := congrArg (fun t => t.1) hsy
        have hy' := List.mem_filter.mp hy
        have hy'' := List.mem_filter.mp hy'.1
        by_cases hmc : m.id = c.id
        · have hyne : y.id ≠ c.id := by simpa using hy''.2
          rw [hmc]
          omega
        · have hmids : m.id ∈ ids := by
            rw [hidsdef]
            exact List.mem_map_of_mem _ (hmem_s1 m hm hmc)
          have hyni : (ids.contains y.id) = false := by simpa using hy'.2
          have : y.id ≠ m.id := by
            intro he
            rw [he] at hyni
            have hc : ids.contains m.id = true := List.elem_eq_true_of_mem hmids
            rw [hc] at hyni
            cases hyni
          omega
    · -- the host was alone: the room is already gone
      have hex' : roomExistsB s1 r = false := Bool.eq_false_iff.mpr hex
      rw [hstep, hhandle_eq]
      simp only [hex', Bool.not_false, Bool.or_true, if_true]
      constructor
      · rw [roomExistsB_shapes]
        unfold shapes
        rw [removeAddress_clients]
        rw [roomExistsB_shapes] at hex'
        exact hex'
      · intro m hm x hx
        rw [removeAddress_clients] at hx
        by_cases hmc : m.id = c.id
        · have := (List.mem_filter.mp hx).2
          rw [hmc]
          intro he
          rw [he] at this
          simp at this
        · exfalso
          have : m ∈ roomMembers s1 r := hmem_s1 m hm hmc
          have : roomExistsB s1 r = true := by
            unfold roomExistsB
            cases hmm : roomMembers s1 r with
            | nil => rw [hmm] at this; cases this
            | cons a t => simp
          rw [this] at hex'
          cases hex'
  · rintro ⟨hhost, m0, hm0, hm0ne⟩
    have hex : roomExistsB s1 r = true := by
      unfold roomExistsB
      cases hmm : roomMembers s1 r with
      | nil =>
        have := hmem_s1 m0 hm0 hm0ne
        rw [hmm] at this
        cases this
      | cons a t => simp
    rw [hstep, hhandle_eq]
    simp only [hrB, hex, Bool.not_true, Bool.or_false, Bool.false_eq_true,
      if_false, hhost]
    have hEsh := entireRoomReadyCheck_shapes s1 r
    refine ⟨?_, ?_, ?_, ?_⟩
    · unfold shapes
      rw [removeAddress_clients]
      exact hEsh.1
    · rw [roomExistsB_eq_of_shapes _ s1 r (by
        unfold shapes
        rw [removeAddress_clients]
        exact hEsh.1)]
      exact hex
    · have hne : roomMembers s1 r ≠ [] := by
        intro hnil
        have := hmem_s1 m0 hm0 hm0ne
        rw [hnil] at this
        cases this
      rcases entireRoomReadyCheck_not_all_ready s1 r hne with ⟨m, hm, hmr⟩
      refine ⟨m, ?_, hmr⟩
      rw [roomMembers_removeAddress]
      exact hm
    · simp [hasStateChangeFor, emitRoomStateChange]

/-- A concrete reachable state: host (socket 0) in room "r" with one joined
member "alice" (socket 1). -/
def stateTwoRoom : ServerState :=
  runTrace cfgDefault
    [ .connect 0 "a" none "sidH"
    , .createRoom 0 [JSValue.str "host"] "r"
    , .connect 1 "b" none "sidA"
    , .joinRoom 1 [JSValue.str "alice", JSValue.str "r"] ]

/-- Witness for C7 (host side): the host of `stateTwoRoom` disconnects with
the expected reason "client namespace disconnect"; room "r" is gone and
both former members' sockets are disconnected. -/
theorem C7_expected_disconnect_finalizes_witness :
    roomExistsB (disconnectStep stateTwoRoom 0 "client namespace disconnect" 3).1 "r" = false ∧
    (∀ m ∈ roomMembers stateTwoRoom "r",
      ∀ x ∈ (disconnectStep stateTwoRoom 0 "client namespace disconnect" 3).1.clients,
        x.id ≠ m.id) :=
  (C7_expected_disconnect_finalizes stateTwoRoom
    ⟨0, "a", ⟨"sidH", "host", true, some "r", false, []⟩, some "r"⟩
    "r" "client namespace disconnect" 3
    (by decide) (by decide) (by decide) (by decide) (by decide) (by decide)).1
    ⟨by decide, by decide⟩

theorem roomExistsB_iff (s : ServerState) (r : String) :
    roomExistsB s r = true ↔ roomMembers s r ≠ [] := by
  unfold roomExistsB
  cases roomMembers s r <;> simp

/-- The state reached when a room {host ready, alice ready, bob unready}
loses bob to a "ping timeout": bob is ghosted and removed from the room
with no consensus recheck, leaving every current member of "r" ready. -/
def stateAllReady : ServerState :=
  runTrace cfgDefault
    [ .connect 0 "a" none "sidH"
    , .createRoom 0 [JSValue.str "host"] "r"
    , .connect 1 "b" none "sidA"
    , .joinRoom 1 [JSValue.str "alice", JSValue.str "r"]
    , .connect 2 "c" none "sidB"
    , .joinRoom 2 [JSValue.str "bob", JSValue.str "r"]
    , .toggleReady 0
    , .toggleReady 1
    , .disconnect 2 "ping timeout" 3 ]

/-- C3 counterexample: an unexpected disconnect is a membership change that
does not re-run the ready consensus — after bob (the sole non-ready member)
drops with "ping timeout", room "r" still exists and every one of its
current members has `isReady = true`, contradicting the claim that no
operation ever leaves a room unanimously ready. -/
theorem C3_counterexample_unexpected_leave :
    roomExistsB stateAllReady "r" = true ∧
    roomMembers stateAllReady "r" ≠ [] ∧
    allMembersReady stateAllReady "r" = true := by
  refine ⟨by decide, by decide, by decide⟩

/-- C3 (amended): the consensus is re-evaluated after every `toggleReady`
and after every departure finalized through `handleRoomDisconnect` (an
expected non-host leave, and equally a non-host ghost-expiry finalize), and
such an operation never leaves the affected room unanimously ready; an
unexpected disconnect, however, removes the member with no recheck. -/
theorem C3_consensus_recheck_toggle_and_finalize (s t : ServerState) (c : Client)
    (r r2 : String) (data : VNSyncData)
    (hfind : s.clients.find? (fun x => x.id == c.id) = some c)
    (hroom : c.data.room = some r)
    (hjoin : c.joined = some r) :
    (∃ s' ems, toggleReadyEvent s c.id = some (s', EventResult.ok (), ems) ∧
      ∃ m ∈ roomMembers s' r, m.data.isReady = false) ∧
    (data.isHost = false → data.room = some r2 → r2 ≠ "" →
      roomExistsB t r2 = true →
      ∃ m ∈ roomMembers (handleRoomDisconnectTop t data).1 r2,
        m.data.isReady = false) := by
  constructor
  · have hcmem : c ∈ s.clients := List.mem_of_find?_eq_some hfind
    have hev : toggleReadyEvent s c.id = some (onToggleReady s c) := by
      unfold toggleReadyEvent
      rw [hfind]
      simp [validateEventArguments, validateRoomPresence, hroom]
    set fFlip : Client → Client :=
      (fun x => { x with data := { x.data with isReady := !x.data.isReady } })
      with hfFlip
    have hot : onToggleReady s c =
        ((entireRoomReadyCheck (updClient s c.id fFlip) r).1, EventResult.ok (),
          (entireRoomReadyCheck (updClient s c.id fFlip) r).2 ++
          (emitRoomStateChange (entireRoomReadyCheck (updClient s c.id fFlip) r).1 r).2) := by
      unfold onToggleReady
      rw [hroom]
      rfl
    have hne : roomMembers (updClient s c.id fFlip) r ≠ [] := by
      have h1 : roomMembers (updClient s c.id fFlip) r =
          (roomMembers s r).map (fun x => if (x.id == c.id) = true then fFlip x else x) := by
        rw [roomMembers_updClient]
        intro x
        rfl
      rw [h1]
      have : c ∈ roomMembers s r := List.mem_filter.mpr ⟨hcmem, by simp [hjoin]⟩
      intro hnil
      exact absurd (List.mem_map_of_mem _ this) (by rw [hnil]; simp)
    rcases entireRoomReadyCheck_not_all_ready (updClient s c.id fFlip) r hne
      with ⟨m, hm, hmr⟩
    exact ⟨_, _, by rw [hev, hot], m, hm, hmr⟩
  · intro hnh hdroom hr2 hex
    unfold handleRoomDisconnectTop
    rw [discRun_handle_eq _ _ _ (by unfold bigFuel; omega)]
    simp only [hdroom, Option.getD_some]
    have hcond : ((r2 == "") || !(roomExistsB t r2)) = false := by
      simp [hr2, hex]
    rw [hcond]
    simp only [Bool.false_eq_true, if_false, hnh]
    rcases entireRoomReadyCheck_not_all_ready t r2
      ((roomExistsB_iff t r2).mp hex) with ⟨m, hm, hmr⟩
    exact ⟨m, hm, hmr⟩

/-- Witness for C3 (amended): the lone host of `stateHostRoom` toggles on
(reset leaves them unready), and alice's departure from `stateTwoRoom` is
finalized through `handleRoomDisconnect` with the host left unready. -/
theorem C3_consensus_recheck_toggle_and_finalize_witness :
    (∃ s' ems, toggleReadyEvent stateHostRoom 0 = some (s', EventResult.ok (), ems) ∧
      ∃ m ∈ roomMembers s' "r", m.data.isReady = false) ∧
    ((⟨"sidA", "alice", false, some "r", false, []⟩ : VNSyncData).isHost = false →
      (⟨"sidA", "alice", false, some "r", false, []⟩ : VNSyncData).room = some "r" →
      "r" ≠ "" → roomExistsB stateTwoRoom "r" = true →
      ∃ m ∈ roomMembers (handleRoomDisconnectTop stateTwoRoom
        ⟨"sidA", "alice", false, some "r", false, []⟩).1 "r",
        m.data.isReady = false) :=
  C3_consensus_recheck_toggle_and_finalize stateHostRoom stateTwoRoom
    ⟨0, "a", ⟨"sidH", "user", true, some "r", false, []⟩, some "r"⟩
    "r" "r" ⟨"sidA", "alice", false, some "r", false, []⟩
    (by decide) (by decide) (by decide)

/-! ### Ghost-store behaviour of disconnection -/

/-- Classification of a pending disconnect call as expected. -/
def expectedCall : DiscCall → Prop
  | .client _ reason _ => badReasons.contains reason = false
  | .onDis _ reason _ => badReasons.contains reason = false
  | _ => True

/-- The whole disconnect cascade of an expected disconnect never touches the
ghost-session store. -/
theorem discRun_ghosts_expected (fuel : Nat) :
    ∀ (s : ServerState) (call : DiscCall), expectedCall call →
      (discRun fuel s call).1.ghostSessions = s.ghostSessions := by
  induction fuel with
  | zero => intro s call _; rfl
  | succ f ih =>
    intro s call h
    cases call with
    | client cid reason now =>
      simp only [discRun]
      cases hf : s.clients.find? (fun c => c.id == cid) with
      | none => rfl
      | some c =>
        simp only [removeAddress_ghosts]
        exact ih _ (.onDis c.data reason now) h
    | onDis data reason now =>
      simp only [discRun]
      rw [show (badReasons.contains reason) = false from h]
      simp only [Bool.false_eq_true, if_false]
      exact ih s (.handle data) trivial
    | handle data =>
      simp only [discRun]
      by_cases h1 : ((data.room.getD "" == "") ||
          !(roomExistsB s (data.room.getD ""))) = true
      · simp only [h1, if_true]
      · have h1' := Bool.eq_false_iff.mpr h1
        rw [h1']
        simp only [Bool.false_eq_true, if_false]
        by_cases hh : data.isHost = true
        · simp only [hh, if_true]
          exact ih s (.each _ 0) trivial
        · have hh' := Bool.eq_false_iff.mpr hh
          rw [hh']
          simp only [Bool.false_eq_true, if_false]
          exact (entireRoomReadyCheck_shapes s (data.room.getD "")).2.1
    | each ids now =>
      simp only [discRun]
      cases ids with
      | nil => rfl
      | cons cid rest =>
        have h1 := ih s (.client cid "server namespace disconnect" now)
          (show badReasons.contains "server namespace disconnect" = false from by decide)
        have h2 := ih (discRun f s (.client cid "server namespace disconnect" now)).1
          (.each rest now) trivial
        simp only [h2, h1]

theorem mem_keys_setA {α : Type} (l : List (String × α)) (k x : String) (v : α)
    (hx : x ∈ (setA l k v).map Prod.fst) : x = k ∨ x ∈ l.map Prod.fst := by
  induction l with
  | nil =>
    rw [show setA ([] : List (String × α)) k v = [(k, v)] from rfl] at hx
    rcases List.mem_map.mp hx with ⟨p, hp, rfl⟩
    rcases List.mem_singleton.mp hp with rfl
    exact Or.inl rfl
  | cons p rest ih =>
    rcases p with ⟨k', w⟩
    by_cases hk : (k' == k) = true
    · rw [show setA ((k', w) :: rest) k v = (k', v) :: rest from by
        simp only [setA]; rw [if_pos hk]] at hx
      rw [List.map_cons] at hx
      rcases List.mem_cons.mp hx with rfl | h
      · exact Or.inr (by rw [List.map_cons]; exact List.mem_cons_self _ _)
      · exact Or.inr (by rw [List.map_cons]; exact List.mem_cons_of_mem _ h)
    · rw [show setA ((k', w) :: rest) k v = (k', w) :: setA rest k v from by
        simp only [setA]; rw [if_neg hk]] at hx
      rw [List.map_cons] at hx
      rcases List.mem_cons.mp hx with rfl | h
      · exact Or.inr (by rw [List.map_cons]; exact List.mem_cons_self _ _)
      · rcases ih h with h' | h'
        · exact Or.inl h'
        · exact Or.inr (by rw [List.map_cons]; exact List.mem_cons_of_mem _ h')

/-- `Map.set` keeps the keys duplicate-free: at most one entry per key. -/
theorem setA_keys_nodup {α : Type} (l : List (String × α)) (k : String) (v : α)
    (h : (l.map Prod.fst).Nodup) : ((setA l k v).map Prod.fst).Nodup := by
  induction l with
  | nil =>
    rw [show setA ([] : List (String × α)) k v = [(k, v)] from rfl]
    simp
  | cons p rest ih =>
    rcases p with ⟨k', w⟩
    rw [List.map_cons] at h
    rcases List.nodup_cons.mp h with ⟨hk', hrest⟩
    by_cases hk : (k' == k) = true
    · rw [show setA ((k', w) :: rest) k v = (k', v) :: rest from by
        simp only [setA]; rw [if_pos hk]]
      rw [List.map_cons]
      exact List.nodup_cons.mpr ⟨hk', hrest⟩
    · rw [show setA ((k', w) :: rest) k v = (k', w) :: setA rest k v from by
        simp only [setA]; rw [if_neg hk]]
      rw [List.map_cons]
      refine List.nodup_cons.mpr ⟨?_, ih hrest⟩
      intro hmem
      rcases mem_keys_setA rest k k' v hmem with h1 | h1
      · exact absurd (by simp [h1]) hk
      · exact hk' h1

/-- A concrete reachable state: a fresh socket that never joined a room. -/
def stateRoomless : ServerState :=
  runTrace cfgDefault [ .connect 0 "a" none "sid0" ]

/-- C4 counterexample: the session of `stateRoomless` has `room = null` and
has never been in a room, yet its "transport close" disconnect stores a
GhostSession (keyed by its session id, `room = null` in the snapshot) —
contradicting the claim that an unexpected disconnect of a session not in a
room creates none. -/
theorem C4_counterexample_roomless_ghost :
    (∀ c ∈ stateRoomless.clients, c.data.room = none) ∧
    (disconnectStep stateRoomless 0 "transport close" 5).1.ghostSessions =
      [("sid0", ⟨5, freshData "sid0"⟩)] := by
  refine ⟨by decide, by decide⟩

/-- C4 (amended): a GhostSession keyed by the session id, holding
`leftAt = now` and the full data snapshot, is created exactly when the
disconnect reason is unexpected — regardless of whether the session is in a
room; an expected disconnect (including every cascaded teardown it causes)
leaves the ghost store untouched; and the store, a map keyed by session id,
always holds at most one ghost per session id. -/
theorem C4_ghost_creation_exactly_on_unexpected (s : ServerState) (c : Client)
    (reason : String) (now : Nat)
    (hfind : s.clients.find? (fun x => x.id == c.id) = some c) :
    (badReasons.contains reason = true →
      (disconnectStep s c.id reason now).1.ghostSessions =
        setA s.ghostSessions c.data.sessionId ⟨now, c.data⟩) ∧
    (badReasons.contains reason = false →
      (disconnectStep s c.id reason now).1.ghostSessions = s.ghostSessions) ∧
    ((s.ghostSessions.map Prod.fst).Nodup →
      ((disconnectStep s c.id reason now).1.ghostSessions.map Prod.fst).Nodup) := by
  have hbad : ∀ hb : badReasons.contains reason = true,
      (disconnectStep s c.id reason now).1.ghostSessions =
        setA s.ghostSessions c.data.sessionId ⟨now, c.data⟩ := by
    intro hb
    unfold disconnectStep
    rw [discRun_client_eq _ _ _ _ _ (by unfold bigFuel; omega), hfind]
    simp only []
    rw [discRun_onDis_eq _ _ _ _ _ (by unfold bigFuel; omega), hb]
    simp only [if_true, removeAddress_ghosts]
  have hexp : ∀ he : badReasons.contains reason = false,
      (disconnectStep s c.id reason now).1.ghostSessions = s.ghostSessions := by
    intro he
    unfold disconnectStep
    exact discRun_ghosts_expected _ s (.client c.id reason now) he
  refine ⟨hbad, hexp, ?_⟩
  intro hnodup
  cases hb : badReasons.contains reason with
  | true =>
    rw [hbad hb]
    exact setA_keys_nodup _ _ _ hnodup
  | false =>
    rw [hexp hb]
    exact hnodup

/-- Witness for C4 (amended): socket 0 of `stateRoomless` disconnecting with
"transport close" (unexpected) stores exactly its ghost; with the expected
"client namespace disconnect" the store stays empty; keys stay nodup. -/
theorem C4_ghost_creation_exactly_on_unexpected_witness :
    (badReasons.contains "transport close" = true →
      (disconnectStep stateRoomless 0 "transport close" 5).1.ghostSessions =
        setA stateRoomless.ghostSessions "sid0" ⟨5, freshData "sid0"⟩) ∧
    (badReasons.contains "transport close" = false →
      (disconnectStep stateRoomless 0 "transport close" 5).1.ghostSessions =
        stateRoomless.ghostSessions) ∧
    ((stateRoomless.ghostSessions.map Prod.fst).Nodup →
      ((disconnectStep stateRoomless 0 "transport close" 5).1.ghostSessions.map
        Prod.fst).Nodup) :=
  C4_ghost_creation_exactly_on_unexpected stateRoomless
    ⟨0, "a", freshData "sid0", none⟩ "transport close" 5 (by decide)

/-- A concrete reachable state: the host of room "r" ghosted by a
"ping timeout" (room now empty, one live ghost). -/
def stateGhostHost : ServerState :=
  runTrace cfgDefault
    [ .connect 0 "a" none "sidH"
    , .createRoom 0 [JSValue.str "host"] "r"
    , .disconnect 0 "ping timeout" 0 ]

/-- `stateGhostHost` after the sweep at the ghost-session lifetime. -/
def stateSwept : ServerState :=
  (cleanGhostSessions cfgDefault 30000 stateGhostHost).1

/-- A concrete reachable state: alice ghosted by "ping timeout" while the
host keeps room "r" alive. -/
def stateGhostMember : ServerState :=
  runTrace cfgDefault
    [ .connect 0 "a" none "sidH"
    , .createRoom 0 [JSValue.str "host"] "r"
    , .connect 1 "b" none "sidA"
    , .joinRoom 1 [JSValue.str "alice", JSValue.str "r"]
    , .disconnect 1 "ping timeout" 0 ]

/-- C2 counterexample: a reconnection attempted after the ghost has expired
and been swept is NOT refused at handshake — with the ghost store empty and
no active session carrying the id, the handshake is accepted and a brand
new session (fresh session id, empty data) is issued instead of a fatal
error. -/
theorem C2_counterexample_reconnect_after_sweep :
    lookupA stateGhostHost.ghostSessions "sidH" ≠ none ∧
    stateSwept.ghostSessions = [] ∧
    (connectStep cfgDefault stateSwept 1 "a" (some "sidH") "sidNew").2.1 =
      ConnectResult.accepted ∧
    (connectStep cfgDefault stateSwept 1 "a" (some "sidH") "sidNew").2.2 =
      [Emission.sessionIdMsg 1 "sidNew"] := by
  refine ⟨by decide, by decide, by decide, by decide⟩

/-- C2 (amended): while its GhostSession is stored, a reconnection with the
session id consumes the ghost; if the referenced room still exists the
snapshot (the whole data record: username, isHost, isReady, clipboard) is
restored and the socket rejoins the room, while if the room is gone the
handshake is refused with the fatal "The room for this session no longer
exists." (ghost still consumed). A reconnection after the ghost has been
swept — no ghost and no active session with that id — is not refused: it
is admitted as a brand-new session with a fresh session id. -/
theorem C2_ghost_reconnection_protocol (cfg : Configuration) (s : ServerState)
    (cid : Nat) (address sid fresh : String) (g : GhostSession) (r : String)
    (hnb : isAddressBlocked cfg s address = false)
    (hsid : sid ≠ "") :
    (lookupA s.ghostSessions sid = some g → g.data.room = some r → r ≠ "" →
      roomExistsB s r = true →
      (connectStep cfg s cid address (some sid) fresh).2.1 = ConnectResult.accepted ∧
      (⟨cid, address, g.data, some r⟩ : Client) ∈
        (connectStep cfg s cid address (some sid) fresh).1.clients ∧
      (connectStep cfg s cid address (some sid) fresh).1.ghostSessions =
        eraseA s.ghostSessions sid ∧
      hasStateChangeFor (connectStep cfg s cid address (some sid) fresh).2.2 r = true) ∧
    (lookupA s.ghostSessions sid = some g →
      roomExistsB s (g.data.room.getD "") = false →
      connectStep cfg s cid address (some sid) fresh =
        ({ s with ghostSessions := eraseA s.ghostSessions sid },
          ConnectResult.refused "The room for this session no longer exists.", [])) ∧
    (lookupA s.ghostSessions sid = none →
      getClientBySessionId s sid = none →
      (connectStep cfg s cid address (some sid) fresh).2.1 = ConnectResult.accepted ∧
      (⟨cid, address, freshData fresh, none⟩ : Client) ∈
        (connectStep cfg s cid address (some sid) fresh).1.clients ∧
      (connectStep cfg s cid address (some sid) fresh).2.2 =
        [Emission.sessionIdMsg cid fresh]) := by
  have hsidB : (sid == "") = false := by simp [hsid]
  refine ⟨?_, ?_, ?_⟩
  · intro hg hgr hr hex
    have hstep : connectStep cfg s cid address (some sid) fresh =
        (let rr := finishConnect { s with ghostSessions := eraseA s.ghostSessions sid }
          cid address (some g.data) fresh
         (rr.1, ConnectResult.accepted, rr.2)) := by
      unfold connectStep
      rw [hnb]
      simp only [Bool.false_eq_true, if_false, hsidB, hg]
      have : roomExistsB { s with ghostSessions := eraseA s.ghostSessions sid }
          (g.data.room.getD "") = true := by
        rw [hgr]
        simp only [Option.getD_some]
        unfold roomExistsB
        rw [roomMembers_set_ghosts]
        rw [roomExistsB_iff] at hex
        cases hm : roomMembers s r with
        | nil => exact absurd hm hex
        | cons a t => simp
      rw [this]
      simp
    have hfin : finishConnect { s with ghostSessions := eraseA s.ghostSessions sid }
        cid address (some g.data) fresh =
        (let s2 := { addAddress { s with ghostSessions := eraseA s.ghostSessions sid }
            address with clients :=
            (addAddress { s with ghostSessions := eraseA s.ghostSessions sid }
              address).clients ++ [⟨cid, address, g.data, some r⟩] }
         emitRoomStateChange s2 r) := by
      unfold finishConnect
      simp only []
      rw [hgr]
      simp only [Option.getD_some]
      have h1 : (r == "") = false := by simp [hr]
      rw [h1]
      simp only [Bool.false_eq_true, if_false]
      have h2 : roomExistsB (addAddress
          { s with ghostSessions := eraseA s.ghostSessions sid } address) r = true := by
        unfold roomExistsB roomMembers
        rw [addAddress_clients]
        have := (roomExistsB_iff s r).mp hex
        unfold roomMembers at this
        cases hm : List.filter (fun c => c.joined == some r) s.clients with
        | nil => exact absurd hm this
        | cons a t => simp
      rw [h2]
      simp
    rw [hstep, hfin]
    refine ⟨rfl, ?_, ?_, ?_⟩
    · rw [emitRoomStateChange_fst]
      simp
    · rw [emitRoomStateChange_fst]
      simp only []
      rw [addAddress_ghosts]
    · simp [hasStateChangeFor, emitRoomStateChange]
  · intro hg hnex
    unfold connectStep
    rw [hnb]
    simp only [Bool.false_eq_true, if_false, hsidB, hg]
    have : roomExistsB { s with ghostSessions := eraseA s.ghostSessions sid }
        (g.data.room.getD "") = false := by
      unfold roomExistsB
      rw [roomMembers_set_ghosts]
      exact hnex
    rw [this]
    simp
  · intro hg hcl
    unfold connectStep
    rw [hnb]
    simp only [Bool.false_eq_true, if_false, hsidB, hg, hcl]
    unfold finishConnect
    refine ⟨by trivial, by simp, by trivial⟩

/-- Witness for C2 (amended): alice's live ghost in `stateGhostMember` is
restored into room "r"; the orphaned host ghost of `stateGhostHost` is
refused; and after the sweep (`stateSwept`) the same id is admitted as a
new session. -/
theorem C2_ghost_reconnection_protocol_witness :
    ((connectStep cfgDefault stateGhostMember 2 "b" (some "sidA") "sidN").2.1 =
        ConnectResult.accepted ∧
      (⟨2, "b", ⟨"sidA", "alice", false, some "r", false, []⟩, some "r"⟩ : Client) ∈
        (connectStep cfgDefault stateGhostMember 2 "b" (some "sidA") "sidN").1.clients ∧
      (connectStep cfgDefault stateGhostMember 2 "b" (some "sidA") "sidN").1.ghostSessions =
        eraseA stateGhostMember.ghostSessions "sidA" ∧
      hasStateChangeFor
        (connectStep cfgDefault stateGhostMember 2 "b" (some "sidA") "sidN").2.2 "r" = true) ∧
    (connectStep cfgDefault stateGhostHost 1 "a" (some "sidH") "sidN" =
      ({ stateGhostHost with ghostSessions := eraseA stateGhostHost.ghostSessions "sidH" },
        ConnectResult.refused "The room for this session no longer exists.", [])) ∧
    ((connectStep cfgDefault stateSwept 1 "a" (some "sidH") "sidN").2.1 =
        ConnectResult.accepted ∧
      (⟨1, "a", freshData "sidN", none⟩ : Client) ∈
        (connectStep cfgDefault stateSwept 1 "a" (some "sidH") "sidN").1.clients ∧
      (connectStep cfgDefault stateSwept 1 "a" (some "sidH") "sidN").2.2 =
        [Emission.sessionIdMsg 1 "sidN"]) :=
  ⟨(C2_ghost_reconnection_protocol cfgDefault stateGhostMember 2 "b" "sidA" "sidN"
      ⟨0, ⟨"sidA", "alice", false, some "r", false, []⟩⟩ "r" (by decide) (by decide)).1
      (by decide) (by decide) (by decide) (by decide),
   (C2_ghost_reconnection_protocol cfgDefault stateGhostHost 1 "a" "sidH" "sidN"
      ⟨0, ⟨"sidH", "host", true, some "r", false, []⟩⟩ "r" (by decide) (by decide)).2.1
      (by decide) (by decide),
   (C2_ghost_reconnection_protocol cfgDefault stateSwept 1 "a" "sidH" "sidN"
      ⟨0, freshData "x"⟩ "r" (by decide) (by decide)).2.2
      (by decide) (by decide)⟩

/-- A concrete reachable state: the host of room "r" ghosted by a
"ping timeout" while alice stays in the room. -/
def stateHostGhosted : ServerState :=
  runTrace cfgDefault
    [ .connect 0 "a" none "sidH"
    , .createRoom 0 [JSValue.str "host"] "r"
    , .connect 1 "b" none "sidA"
    , .joinRoom 1 [JSValue.str "alice", JSValue.str "r"]
    , .disconnect 0 "ping timeout" 0 ]

/-- C1 counterexample: after the host's unexpected disconnect, room "r"
still exists (alice remains) but no currently connected member holds
`isHost = true` — the claimed exactly-one-host invariant is not preserved
by disconnect handling. -/
theorem C1_counterexample_hostless_room :
    roomExistsB stateHostGhosted "r" = true ∧
    hostCount stateHostGhosted "r" = 0 := by
  refine ⟨by decide, by decide⟩

/-! ### List lemmas for the expected-trace room invariant -/

/-- With duplicate-free ids, filtering out one socket's id removes exactly
that socket. -/
theorem filter_ne_id_eq_erase (l : List Client) (c : Client)
    (hids : (l.map (fun x => x.id)).Nodup) (hc : c ∈ l) :
    l.filter (fun x => !(x.id == c.id)) = l.erase c := by
  induction l with
  | nil => cases hc
  | cons a t ih =>
    rw [List.map_cons] at hids
    rcases List.nodup_cons.mp hids with ⟨ha, ht⟩
    by_cases hac : a = c
    · subst hac
      rw [List.erase_cons_head]
      rw [List.filter_cons]
      rw [if_neg (by simp)]
      apply List.filter_eq_self.mpr
      intro x hx
      have : x.id ≠ a.id := by
        intro he
        exact ha (he ▸ List.mem_map_of_mem (fun y => y.id) hx)
      simp [this]
    · have hct : c ∈ t := by
        rcases List.mem_cons.mp hc with h | h
        · exact absurd h.symm hac
        · exact h
      have haid : a.id ≠ c.id := by
        intro he
        exact ha (he ▸ List.mem_map_of_mem (fun y => y.id) hct)
      rw [List.erase_cons_tail (by simp [hac])]
      rw [List.filter_cons]
      rw [if_pos (show (!(a.id == c.id)) = true from by simp [haid])]
      rw [ih ht hct]

/-- A predicate holding on a one-element filter output has a unique witness. -/
theorem filter_length_one_unique {α : Type} (l : List α) (p : α → Bool)
    (h : (l.filter p).length = 1) (a b : α) (ha : a ∈ l) (hpa : p a = true)
    (hb : b ∈ l) (hpb : p b = true) : a = b := by
  cases hf : l.filter p with
  | nil => rw [hf] at h; cases h
  | cons x t =>
    rw [hf] at h
    have ht : t = [] := by
      cases t with
      | nil => rfl
      | cons y u => simp at h
    subst ht
    have ha' : a ∈ l.filter p := List.mem_filter.mpr ⟨ha, hpa⟩
    have hb' : b ∈ l.filter p := List.mem_filter.mpr ⟨hb, hpb⟩
    rw [hf] at ha' hb'
    rcases List.mem_singleton.mp ha' with rfl
    rcases List.mem_singleton.mp hb' with rfl
    rfl

/-- Updating the unique socket with a given id, viewed through any filter:
up to permutation, the update removes the old socket and adds its image. -/
theorem filter_upd_unique (l : List Client) (c : Client) (f : Client → Client)
    (p : Client → Bool)
    (hids : (l.map (fun x => x.id)).Nodup) (hc : c ∈ l) :
    List.Perm
      ((l.map (fun x => if (x.id == c.id) = true then f x else x)).filter p)
      ((if p (f c) = true then [f c] else []) ++ (l.erase c).filter p) := by
  induction l with
  | nil => cases hc
  | cons a t ih =>
    rw [List.map_cons] at hids
    rcases List.nodup_cons.mp hids with ⟨ha, ht⟩
    by_cases hac : a = c
    · subst hac
      rw [List.erase_cons_head]
      have hmap : t.map (fun x => if (x.id == a.id) = true then f x else x) = t := by
        conv_rhs => rw [← List.map_id t]
        apply List.map_congr_left
        intro x hx
        have : x.id ≠ a.id := by
          intro he
          exact ha (he ▸ List.mem_map_of_mem (fun y => y.id) hx)
        simp [this]
      rw [List.map_cons, hmap]
      rw [show (if (a.id == a.id) = true then f a else a) = f a from by simp]
      rw [List.filter_cons]
      by_cases hp : p (f a) = true
      · rw [hp]
        simp only [if_true]
        exact List.Perm.refl _
      · rw [Bool.eq_false_iff.mpr hp]
        simp only [Bool.false_eq_true, if_false]
        exact List.Perm.refl _
    · have hct : c ∈ t := by
        rcases List.mem_cons.mp hc with h | h
        · exact absurd h.symm hac
        · exact h
      have haid : a.id ≠ c.id := by
        intro he
        exact ha (he ▸ List.mem_map_of_mem (fun y => y.id) hct)
      rw [List.map_cons]
      rw [show (if (a.id == c.id) = true then f a else a) = a from by simp [haid]]
      rw [List.erase_cons_tail (by simp [hac])]
      rw [List.filter_cons, List.filter_cons]
      by_cases hpa : p a = true
      · rw [hpa]
        simp only [if_true]
        refine List.Perm.trans (List.Perm.cons a (ih ht hct)) ?_
        exact (List.perm_middle).symm
      · rw [Bool.eq_false_iff.mpr hpa]
        simp only [Bool.false_eq_true, if_false]
        exact ih ht hct

/-- Filtering commutes past the one-socket filter removal. -/
theorem filter_comm_clients (l : List Client) (p q : Client → Bool) :
    (l.filter p).filter q = (l.filter q).filter p := by
  rw [List.filter_filter, List.filter_filter]
  apply List.filter_congr
  intro x _
  rw [Bool.and_comm]

/-! ### The room invariant on expected-disconnect traces -/

/-- The strengthened induction invariant: socket ids are unique in the
registry, no ghost session exists (no unexpected disconnect has happened),
each socket's joined room is exactly its `data.room`, a roomless socket is
never a host, no socket sits in a room named "", and every existing room
has exactly one connected host and pairwise-distinct usernames. -/
def Inv (s : ServerState) : Prop :=
  (s.clients.map (fun c => c.id)).Nodup ∧
  s.ghostSessions = [] ∧
  (∀ c ∈ s.clients, c.joined = c.data.room) ∧
  (∀ c ∈ s.clients, c.data.room = none → c.data.isHost = false) ∧
  (∀ c ∈ s.clients, c.data.room ≠ some "") ∧
  (∀ r, roomExistsB s r = true →
    hostCount s r = 1 ∧ (roomUsernames s r).Nodup)

theorem Inv_initialState : Inv initialState := by
  refine ⟨by simp [initialState], rfl, ?_, ?_, ?_, ?_⟩
  · intro c hc
    simp [initialState] at hc
  · intro c hc
    simp [initialState] at hc
  · intro c hc
    simp [initialState] at hc
  · intro r hr
    simp [roomExistsB, roomMembers, initialState] at hr

/-- hostCount read off the shapes. -/
theorem hostCount_shapes (s : ServerState) (r : String) :
    hostCount s r = (((shapes s).filter (fun t => t.2.1 == some r)).filter
      (fun t => t.2.2.2.2)).length := by
  unfold hostCount
  rw [← roomMembers_map_shape]
  rw [← filter_map_shape (roomMembers s r) (fun c => c.data.isHost)
    (fun t => t.2.2.2.2) (fun x => rfl)]
  rw [List.length_map]

/-- Usernames read off the shapes. -/
theorem roomUsernames_shapes (s : ServerState) (r : String) :
    roomUsernames s r = ((shapes s).filter (fun t => t.2.1 == some r)).map
      (fun t => t.2.2.2.1) := by
  unfold roomUsernames
  rw [← roomMembers_map_shape]
  rw [List.map_map]
  rfl

/-- `Inv` only reads the shapes and the ghost store. -/
theorem Inv_of_shapes (t s : ServerState) (hsh : shapes t = shapes s)
    (hg : t.ghostSessions = s.ghostSessions) (h : Inv s) : Inv t := by
  obtain ⟨ha, hb, hc, hd, he, hf⟩ := h
  have hmem : ∀ x ∈ t.clients, ∃ y ∈ s.clients, shape y = shape x := by
    intro x hx
    have : shape x ∈ shapes s := by
      rw [← hsh]
      exact List.mem_map_of_mem shape hx
    exact List.mem_map.mp this
  refine ⟨?_, by rw [hg]; exact hb, ?_, ?_, ?_, ?_⟩
  · have h1 : t.clients.map (fun c => c.id) = (shapes t).map (fun x => x.1) := by
      unfold shapes
      rw [List.map_map]
      rfl
    have h2 : s.clients.map (fun c => c.id) = (shapes s).map (fun x => x.1) := by
      unfold shapes
      rw [List.map_map]
      rfl
    rw [h1, hsh, ← h2]
    exact ha
  · intro x hx
    rcases hmem x hx with ⟨y, hy, hs⟩
    have e1 : y.joined = x.joined := congrArg (fun t => t.2.1) hs
    have e2 : y.data.room = x.data.room := congrArg (fun t => t.2.2.1) hs
    rw [← e1, ← e2]
    exact hc y hy
  · intro x hx hr
    rcases hmem x hx with ⟨y, hy, hs⟩
    have e2 : y.data.room = x.data.room := congrArg (fun t => t.2.2.1) hs
    have e3 : y.data.isHost = x.data.isHost := congrArg (fun t => t.2.2.2.2) hs
    rw [← e3]
    exact hd y hy (by rw [e2, hr])
  · intro x hx
    rcases hmem x hx with ⟨y, hy, hs⟩
    have e2 : y.data.room = x.data.room := congrArg (fun t => t.2.2.1) hs
    rw [← e2]
    exact he y hy
  · intro r hr
    have hex : roomExistsB s r = true := by
      rw [roomExistsB_shapes] at hr ⊢
      rw [← hsh]
      exact hr
    have := hf r hex
    constructor
    · rw [hostCount_shapes, hsh, ← hostCount_shapes]
      exact this.1
    · rw [roomUsernames_shapes, hsh, ← roomUsernames_shapes]
      exact this.2

/-- Removing a socket that is not a host (of anything) preserves `Inv`. -/
theorem Inv_remove_nonhost (s : ServerState) (cid : Nat) (hInv : Inv s)
    (hnh : ∀ x ∈ s.clients, x.id = cid → x.data.isHost = false) :
    Inv { s with clients := s.clients.filter (fun x => !(x.id == cid)) } := by
  obtain ⟨ha, hb, hc, hd, he, hf⟩ := hInv
  have hsub : ∀ x ∈ s.clients.filter (fun x => !(x.id == cid)), x ∈ s.clients :=
    fun x hx => (List.mem_filter.mp hx).1
  refine ⟨?_, hb, fun x hx => hc x (hsub x hx), fun x hx => hd x (hsub x hx),
    fun x hx => he x (hsub x hx), ?_⟩
  · exact List.Nodup.sublist (List.Sublist.map _ (List.filter_sublist _)) ha
  · intro r hr
    have hmm : roomMembers { s with clients := s.clients.filter (fun x => !(x.id == cid)) } r
        = (roomMembers s r).filter (fun x => !(x.id == cid)) := by
      unfold roomMembers
      exact filter_comm_clients _ _ _
    by_cases hcmem : ∃ c ∈ roomMembers s r, c.id = cid
    · rcases hcmem with ⟨c, hcm, hcid⟩
      subst hcid
      have hmids : ((roomMembers s r).map (fun x => x.id)).Nodup :=
        List.Nodup.sublist (List.Sublist.map _ (List.filter_sublist _)) ha
      have herase : (roomMembers s r).filter (fun x => !(x.id == c.id)) =
          (roomMembers s r).erase c := filter_ne_id_eq_erase _ c hmids hcm
      have hperm : List.Perm (roomMembers s r) (c :: (roomMembers s r).erase c) :=
        List.perm_cons_erase hcm
      have hex0 : roomExistsB s r = true := by
        rw [roomExistsB_iff]
        intro hnil
        rw [hnil] at hcm
        cases hcm
      obtain ⟨h1, h2⟩ := hf r hex0
      have hcnh : c.data.isHost = false :=
        hnh c (List.mem_filter.mp hcm).1 rfl
      constructor
      · unfold hostCount at h1 ⊢
        rw [hmm, herase]
        have : List.Perm ((roomMembers s r).filter (fun x => x.data.isHost))
            (((c :: (roomMembers s r).erase c)).filter (fun x => x.data.isHost)) :=
          List.Perm.filter _ hperm
        rw [List.filter_cons] at this
        rw [hcnh] at this
        simp only [Bool.false_eq_true, if_false] at this
        rw [← this.length_eq]
        exact h1
      · unfold roomUsernames at h2 ⊢
        rw [hmm, herase]
        exact List.Nodup.sublist
          (List.Sublist.map _ (List.erase_sublist c (roomMembers s r))) h2
    · push_neg at hcmem
      have : roomMembers { s with clients := s.clients.filter (fun x => !(x.id == cid)) } r
          = roomMembers s r := by
        rw [hmm]
        apply List.filter_eq_self.mpr
        intro x hx
        simp [hcmem x hx]
      have hex0 : roomExistsB s r = true := by
        rw [roomExistsB_iff] at hr ⊢
        rw [this] at hr
        exact hr
      obtain ⟨h1, h2⟩ := hf r hex0
      constructor
      · unfold hostCount
        rw [this]
        exact h1
      · unfold roomUsernames
        rw [this]
        exact h2

/-- Removing every socket of one room preserves `Inv`. -/
theorem Inv_remove_room (s : ServerState) (r0 : String) (hInv : Inv s) :
    Inv { s with clients := s.clients.filter (fun x => !(x.joined == some r0)) } := by
  obtain ⟨ha, hb, hc, hd, he, hf⟩ := hInv
  have hsub : ∀ x ∈ s.clients.filter (fun x => !(x.joined == some r0)),
      x ∈ s.clients := fun x hx => (List.mem_filter.mp hx).1
  refine ⟨?_, hb, fun x hx => hc x (hsub x hx), fun x hx => hd x (hsub x hx),
    fun x hx => he x (hsub x hx), ?_⟩
  · exact List.Nodup.sublist (List.Sublist.map _ (List.filter_sublist _)) ha
  · intro r hr
    have hmm : roomMembers { s with clients := s.clients.filter (fun x => !(x.joined == some r0)) } r
        = (roomMembers s r).filter (fun x => !(x.joined == some r0)) := by
      unfold roomMembers
      exact filter_comm_clients _ _ _
    by_cases hrr : r = r0
    · subst hrr
      exfalso
      rw [roomExistsB_iff, hmm] at hr
      apply hr
      apply List.filter_eq_nil_iff.mpr
      intro x hx
      have := (List.mem_filter.mp hx).2
      simp [this]
    · have heq : roomMembers { s with clients := s.clients.filter (fun x => !(x.joined == some r0)) } r
          = roomMembers s r := by
        rw [hmm]
        apply List.filter_eq_self.mpr
        intro x hx
        have := (List.mem_filter.mp hx).2
        have hxj : x.joined = some r := by simpa using this
        simp [hxj, hrr]
      have hex0 : roomExistsB s r = true := by
        rw [roomExistsB_iff] at hr ⊢
        rw [heq] at hr
        exact hr
      obtain ⟨h1, h2⟩ := hf r hex0
      exact ⟨by unfold hostCount; rw [heq]; exact h1,
        by unfold roomUsernames; rw [heq]; exact h2⟩

/-- `Inv` only depends on clients and the ghost store. -/
theorem Inv_congr (t s : ServerState) (hcl : t.clients = s.clients)
    (hg : t.ghostSessions = s.ghostSessions) (h : Inv s) : Inv t := by
  obtain ⟨ha, hb, hc, hd, he, hf⟩ := h
  have hmm : ∀ r, roomMembers t r = roomMembers s r := by
    intro r
    unfold roomMembers
    rw [hcl]
  refine ⟨by rw [hcl]; exact ha, by rw [hg]; exact hb,
    by rw [hcl]; exact hc, by rw [hcl]; exact hd, by rw [hcl]; exact he, ?_⟩
  intro r hr
  have : roomExistsB t r = roomExistsB s r := by
    unfold roomExistsB
    rw [hmm]
  rw [this] at hr
  obtain ⟨h1, h2⟩ := hf r hr
  exact ⟨by unfold hostCount; rw [hmm]; exact h1,
    by unfold roomUsernames; rw [hmm]; exact h2⟩

theorem roomMembers_append (s : ServerState) (c₀ : Client) (r : String) :
    roomMembers { s with clients := s.clients ++ [c₀] } r =
      roomMembers s r ++ (if (c₀.joined == some r) = true then [c₀] else []) := by
  unfold roomMembers
  rw [List.filter_append]
  congr 1
  rw [List.filter_cons]
  by_cases h : (c₀.joined == some r) = true
  · rw [h]
    simp
  · rw [Bool.eq_false_iff.mpr h]
    simp

/-- Appending a fresh roomless socket preserves `Inv`. -/
theorem Inv_append_fresh (s : ServerState) (cid : Nat) (addr sid : String)
    (hInv : Inv s) (hfresh : ∀ x ∈ s.clients, x.id ≠ cid) :
    Inv { s with clients := s.clients ++ [⟨cid, addr, freshData sid, none⟩] } := by
  obtain ⟨ha, hb, hc, hd, he, hf⟩ := hInv
  refine ⟨?_, hb, ?_, ?_, ?_, ?_⟩
  · rw [List.map_append]
    simp only [List.map_cons, List.map_nil]
    rw [List.nodup_append]
    refine ⟨ha, by simp, ?_⟩
    intro i hi
    rcases List.mem_map.mp hi with ⟨x, hx, rfl⟩
    simp only [List.mem_singleton]
    intro he'
    exact hfresh x hx he'
  · intro x hx
    rcases List.mem_append.mp hx with h | h
    · exact hc x h
    · rcases List.mem_singleton.mp h with rfl
      rfl
  · intro x hx
    rcases List.mem_append.mp hx with h | h
    · exact hd x h
    · rcases List.mem_singleton.mp h with rfl
      intro
      rfl
  · intro x hx
    rcases List.mem_append.mp hx with h | h
    · exact he x h
    · rcases List.mem_singleton.mp h with rfl
      simp [freshData]
  · intro r hr
    have hmm := roomMembers_append s ⟨cid, addr, freshData sid, none⟩ r
    rw [show ((⟨cid, addr, freshData sid, none⟩ : Client).joined == some r) = false
      from by simp] at hmm
    simp only [Bool.false_eq_true, if_false, List.append_nil] at hmm
    have hex0 : roomExistsB s r = true := by
      rw [roomExistsB_iff] at hr ⊢
      rw [hmm] at hr
      exact hr
    obtain ⟨h1, h2⟩ := hf r hex0
    exact ⟨by unfold hostCount; rw [hmm]; exact h1,
      by unfold roomUsernames; rw [hmm]; exact h2⟩

/-- Appending a host socket into a room with no current members (recreating
its torn-down room) preserves `Inv`. -/
theorem Inv_append_host (s : ServerState) (cid : Nat) (addr : String)
    (d : VNSyncData) (r0 : String) (hInv : Inv s)
    (hfresh : ∀ x ∈ s.clients, x.id ≠ cid)
    (hd : d.room = some r0) (hr : r0 ≠ "") (hhost : d.isHost = true)
    (hnoroom : roomExistsB s r0 = false) :
    Inv { s with clients := s.clients ++ [⟨cid, addr, d, some r0⟩] } := by
  obtain ⟨ha, hb, hc, hd', he, hf⟩ := hInv
  refine ⟨?_, hb, ?_, ?_, ?_, ?_⟩
  · rw [List.map_append]
    simp only [List.map_cons, List.map_nil]
    rw [List.nodup_append]
    refine ⟨ha, by simp, ?_⟩
    intro i hi
    rcases List.mem_map.mp hi with ⟨x, hx, rfl⟩
    simp only [List.mem_singleton]
    intro he'
    exact hfresh x hx he'
  · intro x hx
    rcases List.mem_append.mp hx with h | h
    · exact hc x h
    · rcases List.mem_singleton.mp h with rfl
      simp [hd]
  · intro x hx
    rcases List.mem_append.mp hx with h | h
    · exact hd' x h
    · rcases List.mem_singleton.mp h with rfl
      intro hcontra
      simp only [] at hcontra
      rw [hd] at hcontra
      cases hcontra
  · intro x hx
    rcases List.mem_append.mp hx with h | h
    · exact he x h
    · rcases List.mem_singleton.mp h with rfl
      simp only []
      rw [hd]
      intro hcontra
      exact hr (by injection hcontra)
  · intro r hr'
    have hmm := roomMembers_append s ⟨cid, addr, d, some r0⟩ r
    by_cases hrr : r = r0
    · subst hrr
      rw [show ((⟨cid, addr, d, some r⟩ : Client).joined == some r) = true
        from by simp] at hmm
      simp only [if_true] at hmm
      have hnil : roomMembers s r = [] := by
        unfold roomExistsB at hnoroom
        cases hmem : roomMembers s r with
        | nil => rfl
        | cons a t =>
          rw [hmem] at hnoroom
          simp at hnoroom
      rw [hnil, List.nil_append] at hmm
      constructor
      · unfold hostCount
        rw [hmm]
        simp [List.filter_cons, hhost]
      · unfold roomUsernames
        rw [hmm]
        simp
    · rw [show ((⟨cid, addr, d, some r0⟩ : Client).joined == some r) = false
        from by simp [Ne.symm hrr]] at hmm
      simp only [Bool.false_eq_true, if_false, List.append_nil] at hmm
      have hex0 : roomExistsB s r = true := by
        rw [roomExistsB_iff] at hr' ⊢
        rw [hmm] at hr'
        exact hr'
      obtain ⟨h1, h2⟩ := hf r hex0
      exact ⟨by unfold hostCount; rw [hmm]; exact h1,
        by unfold roomUsernames; rw [hmm]; exact h2⟩

/-- Appending a non-host socket into an existing room, under a username not
currently taken there, preserves `Inv`. -/
theorem Inv_append_member (s : ServerState) (cid : Nat) (addr : String)
    (d : VNSyncData) (r0 : String) (hInv : Inv s)
    (hfresh : ∀ x ∈ s.clients, x.id ≠ cid)
    (hd : d.room = some r0) (hr : r0 ≠ "") (hnh : d.isHost = false)
    (hex : roomExistsB s r0 = true)
    (hu : d.username ∉ roomUsernames s r0) :
    Inv { s with clients := s.clients ++ [⟨cid, addr, d, some r0⟩] } := by
  obtain ⟨ha, hb, hc, hd', he, hf⟩ := hInv
  refine ⟨?_, hb, ?_, ?_, ?_, ?_⟩
  · rw [List.map_append]
    simp only [List.map_cons, List.map_nil]
    rw [List.nodup_append]
    refine ⟨ha, by simp, ?_⟩
    intro i hi
    rcases List.mem_map.mp hi with ⟨x, hx, rfl⟩
    simp only [List.mem_singleton]
    intro he'
    exact hfresh x hx he'
  · intro x hx
    rcases List.mem_append.mp hx with h | h
    · exact hc x h
    · rcases List.mem_singleton.mp h with rfl
      simp [hd]
  · intro x hx
    rcases List.mem_append.mp hx with h | h
    · exact hd' x h
    · rcases List.mem_singleton.mp h with rfl
      intro hcontra
      simp only [] at hcontra
      rw [hd] at hcontra
      cases hcontra
  · intro x hx
    rcases List.mem_append.mp hx with h | h
    · exact he x h
    · rcases List.mem_singleton.mp h with rfl
      simp only []
      rw [hd]
      intro hcontra
      exact hr (by injection hcontra)
  · intro r hr'
    have hmm := roomMembers_append s ⟨cid, addr, d, some r0⟩ r
    by_cases hrr : r = r0
    · subst hrr
      rw [show ((⟨cid, addr, d, some r⟩ : Client).joined == some r) = true
        from by simp] at hmm
      simp only [if_true] at hmm
      obtain ⟨h1, h2⟩ := hf r hex
      constructor
      · unfold hostCount
        rw [hmm, List.filter_append]
        rw [show List.filter (fun c => c.data.isHost)
            [(⟨cid, addr, d, some r⟩ : Client)] = [] from by simp [List.filter, hnh]]
        rw [List.append_nil]
        exact h1
      · unfold roomUsernames
        rw [hmm, List.map_append]
        simp only [List.map_cons, List.map_nil]
        rw [List.nodup_append]
        refine ⟨h2, by simp, ?_⟩
        intro u hu'
        simp only [List.mem_singleton]
        intro he'
        subst he'
        exact hu hu'
    · rw [show ((⟨cid, addr, d, some r0⟩ : Client).joined == some r) = false
        from by simp [Ne.symm hrr]] at hmm
      simp only [Bool.false_eq_true, if_false, List.append_nil] at hmm
      have hex0 : roomExistsB s r = true := by
        rw [roomExistsB_iff] at hr' ⊢
        rw [hmm] at hr'
        exact hr'
      obtain ⟨h1, h2⟩ := hf r hex0
      exact ⟨by unfold hostCount; rw [hmm]; exact h1,
        by unfold roomUsernames; rw [hmm]; exact h2⟩

theorem ids_subset_of_shapes_filter (s' s : ServerState) (p : Client → Bool)
    (hsh : shapes s' = shapes { s with clients := s.clients.filter p }) :
    ∀ i ∈ s'.clients.map (fun x => x.id), i ∈ s.clients.map (fun x => x.id) := by
  intro i hi
  rcases List.mem_map.mp hi with ⟨x, hx, rfl⟩
  have : shape x ∈ shapes s' := List.mem_map_of_mem shape hx
  rw [hsh] at this
  rcases List.mem_map.mp this with ⟨y, hy, hsy⟩
  have : y.id = x.id := congrArg (fun t => t.1) hsy
  rw [← this]
  exact List.mem_map_of_mem _ ((List.mem_filter.mp hy).1)

/-- Removing every socket of a room indeed removes the room. -/
theorem roomExistsB_roomRemoved (s : ServerState) (r : String) :
    roomExistsB { s with clients := s.clients.filter (fun x => !(x.joined == some r)) } r
      = false := by
  unfold roomExistsB
  cases hmm : roomMembers { s with clients := s.clients.filter (fun x => !(x.joined == some r)) } r with
  | nil =>
    rfl
  | cons a t =>
    exfalso
    have ha' : a ∈ roomMembers { s with clients := s.clients.filter (fun x => !(x.joined == some r)) } r := by
      rw [hmm]
      exact List.mem_cons_self a t
    have h1 := (List.mem_filter.mp ha').2
    have h2 := (List.mem_filter.mp (List.mem_filter.mp ha').1).2
    rw [h1] at h2
    simp at h2

/-- The full effect of one expected disconnect under `Inv`: the invariant is
preserved, the ghost store stays empty, no new socket id appears, and the
departing socket's room is torn down (host) or survives it shape-unchanged
apart from the removal (non-host). -/
theorem discClient_expected_full (s : ServerState) (cid : Nat) (reason : String)
    (now : Nat) (hInv : Inv s) (hexp : badReasons.contains reason = false) :
    Inv (discRun (bigFuel s) s (.client cid reason now)).1 ∧
    (discRun (bigFuel s) s (.client cid reason now)).1.ghostSessions = [] ∧
    (∀ i ∈ (discRun (bigFuel s) s (.client cid reason now)).1.clients.map
      (fun x => x.id), i ∈ s.clients.map (fun x => x.id)) ∧
    (∀ E, s.clients.find? (fun x => x.id == cid) = some E →
      (E.data.isHost = true →
        roomExistsB (discRun (bigFuel s) s (.client cid reason now)).1
          (E.data.room.getD "") = false) ∧
      (E.data.isHost = false →
        shapes (discRun (bigFuel s) s (.client cid reason now)).1 =
          shapes { s with clients := s.clients.filter (fun x => !(x.id == cid)) })) := by
  have hInv0 := hInv
  obtain ⟨ha, hb, hc, hd, he, hf⟩ := hInv0
  cases hfind : s.clients.find? (fun x => x.id == cid) with
  | none =>
    have hid : discRun (bigFuel s) s (.client cid reason now) = (s, []) := by
      rw [discRun_client_eq _ _ _ _ _ (by unfold bigFuel; omega), hfind]
    rw [hid]
    refine ⟨hInv, hb, fun i hi => hi, ?_⟩
    intro E hE
    exact Option.noConfusion hE
  | some E =>
    have hEmem : E ∈ s.clients := List.mem_of_find?_eq_some hfind
    have hEid : E.id = cid := by simpa using List.find?_some hfind
    cases hEhost : E.data.isHost with
    | false =>
      have hcl := discRun_client_nonhost (bigFuel s) s cid reason now hexp
        (by
          intro x hx hxid
          have : x = E := List.inj_on_of_nodup_map ha hx hEmem (by omega)
          rw [this]
          exact hEhost)
        (by unfold bigFuel; omega)
      have hsh : shapes (discRun (bigFuel s) s (.client cid reason now)).1 =
          shapes { s with clients := s.clients.filter (fun x => !(x.id == cid)) } :=
        hcl.1
      have hInvF : Inv { s with clients := s.clients.filter (fun x => !(x.id == cid)) } :=
        Inv_remove_nonhost s cid hInv (by
          intro x hx hxid
          have : x = E := List.inj_on_of_nodup_map ha hx hEmem (by omega)
          rw [this]
          exact hEhost)
      refine ⟨Inv_of_shapes _ _ hsh (by rw [hcl.2]) hInvF,
        by rw [hcl.2]; exact hb,
        ids_subset_of_shapes_filter _ _ _ hsh, ?_⟩
      intro E' hE'
      injection hE' with hEE
      subst hEE
      exact ⟨fun hcontra => absurd hcontra (by rw [hEhost]; simp), fun _ => hsh⟩
    | true =>
      rcases hroomE : E.data.room with _ | r
      · exact absurd (hd E hEmem hroomE) (by rw [hEhost]; simp)
      · have hr : r ≠ "" := by
          have := he E hEmem
          rw [hroomE] at this
          intro hcontra
          exact this (by rw [hcontra])
        have hEj : E.joined = some r := by rw [hc E hEmem, hroomE]
        set s1 : ServerState :=
          { s with clients := s.clients.filter (fun x => !(x.id == cid)) } with hs1def
        have hstep : discRun (bigFuel s) s (.client cid reason now) =
            (let r0 := discRun (bigFuel s - 2) s1 (.handle E.data)
             (removeAddress r0.1 E.address, r0.2)) := by
          rw [discRun_client_eq _ _ _ _ _ (by unfold bigFuel; omega), hfind]
          simp only []
          rw [discRun_onDis_eq _ _ _ _ _ (by unfold bigFuel; omega), hexp]
          simp only [Bool.false_eq_true, if_false]
          rw [show bigFuel s - 1 - 1 = bigFuel s - 2 from by omega]
        have hrB : (r == "") = false := by simp [hr]
        have hothers : ∀ m ∈ roomMembers s r, m.id ≠ cid → m.data.isHost = false := by
          intro m hm hmne
          by_contra hcontra
          have hmh : m.data.isHost = true := by
            cases hmb : m.data.isHost with
            | true => rfl
            | false => exact absurd hmb hcontra
          have hEmemr : E ∈ roomMembers s r :=
            List.mem_filter.mpr ⟨hEmem, by simp [hEj]⟩
          have hex0 : roomExistsB s r = true := by
            rw [roomExistsB_iff]
            intro hnil
            rw [hnil] at hEmemr
            cases hEmemr
          have h1 := (hf r hex0).1
          unfold hostCount at h1
          have := filter_length_one_unique (roomMembers s r) (fun x => x.data.isHost)
            h1 m E hm hmh hEmemr hEhost
          exact hmne (by rw [this, hEid])
        have hmemS1 : roomMembers s1 r =
            (roomMembers s r).filter (fun x => !(x.id == cid)) := by
          unfold roomMembers
          exact filter_comm_clients _ _ _
        have hhandle : discRun (bigFuel s - 2) s1 (.handle E.data) =
            (if (r == "") || !(roomExistsB s1 r) then (s1, [])
             else if E.data.isHost then
               discRun (bigFuel s - 3) s1
                 (.each ((roomMembers s1 r).map (fun x => x.id)) 0)
             else
               let r1 := entireRoomReadyCheck s1 r
               let r2 := emitRoomStateChange r1.1 r
               (r2.1, r1.2 ++ r2.2)) := by
          rw [discRun_handle_eq _ _ _ (by unfold bigFuel; omega)]
          simp only [hroomE, Option.getD_some]
          rw [show bigFuel s - 2 - 1 = bigFuel s - 3 from by omega]
        by_cases hex1 : roomExistsB s1 r = true
        · have hcascade := discRun_each_nonhost
            ((roomMembers s1 r).map (fun x => x.id)) (bigFuel s - 3) s1 0
            (by
              intro cid' hcid' x hx hxid
              rcases List.mem_map.mp hcid' with ⟨m, hm, rfl⟩
              have hm' := List.mem_filter.mp hm
              have hm'' := List.mem_filter.mp hm'.1
              have hmne : m.id ≠ cid := by simpa using hm''.2
              have hmmem : m ∈ roomMembers s r :=
                List.mem_filter.mpr ⟨hm''.1, hm'.2⟩
              have hxm : x = m := List.inj_on_of_nodup_map ha
                (List.mem_filter.mp hx).1 hm''.1 hxid
              rw [hxm]
              exact hothers m hmmem hmne)
            (by
              have h1 : ((roomMembers s1 r).map (fun x => x.id)).length ≤
                  s.clients.length := by
                rw [List.length_map]
                calc (roomMembers s1 r).length ≤ s1.clients.length :=
                      List.length_filter_le _ _
                  _ ≤ s.clients.length := List.length_filter_le _ _
              unfold bigFuel
              omega)
          rw [hstep, hhandle]
          simp only [hrB, hex1, Bool.not_true, Bool.or_false, Bool.false_eq_true,
            if_false, hEhost, if_true]
          set ids := (roomMembers s1 r).map (fun x => x.id) with hidsdef
          have hcombine : s1.clients.filter (fun x => !(ids.contains x.id)) =
              s.clients.filter (fun x => !(x.joined == some r)) := by
            rw [hs1def]
            simp only []
            rw [List.filter_filter]
            apply List.filter_congr
            intro x hx
            by_cases hxj : (x.joined == some r) = true
            · by_cases hxc : x.id = cid
              · simp [hxc, hxj]
              · have hxm : x ∈ roomMembers s1 r := by
                  rw [hmemS1]
                  exact List.mem_filter.mpr
                    ⟨List.mem_filter.mpr ⟨hx, hxj⟩, by simp [hxc]⟩
                have hxin : x.id ∈ ids := List.mem_map_of_mem _ hxm
                simp [hxj, hxc]
                exact hxin
            · have hxc : x.id ≠ cid := by
                intro hxe
                have : x = E := List.inj_on_of_nodup_map ha hx hEmem (by omega)
                rw [this] at hxj
                exact hxj (by simp [hEj])
              have hnotin : x.id ∉ ids := by
                intro hxin
                rcases List.mem_map.mp hxin with ⟨m, hm, hmid⟩
                have hm' := List.mem_filter.mp hm
                have hm'' := List.mem_filter.mp hm'.1
                have : x = m := List.inj_on_of_nodup_map ha hx hm''.1 hmid.symm
                rw [this] at hxj
                exact hxj hm'.2
              simp [hxj, hxc]
              exact hnotin
          have hshape2 : shapes (removeAddress (discRun (bigFuel s - 3) s1 (.each ids 0)).1 E.address) = shapes { s with clients := s.clients.filter (fun x => !(x.joined == some r)) } := by
            have hc1 : List.map shape (discRun (bigFuel s - 3) s1 (.each ids 0)).1.clients =
                List.map shape (s1.clients.filter (fun x => !(ids.contains x.id))) := hcascade.1
            unfold shapes
            rw [removeAddress_clients, hc1, hcombine]
          have hg2 : (removeAddress (discRun (bigFuel s - 3) s1 (.each ids 0)).1 E.address).ghostSessions = [] := by
            rw [removeAddress_ghosts, hcascade.2]
            exact hb
          have hInvRR : Inv { s with clients := s.clients.filter (fun x => !(x.joined == some r)) } :=
            Inv_remove_room s r hInv
          refine ⟨Inv_of_shapes _ _ hshape2 (by rw [hg2]; exact hb.symm) hInvRR, hg2,
            ids_subset_of_shapes_filter _ _ _ hshape2, ?_⟩
          intro E' hE'
          injection hE' with hEE
          subst hEE
          refine ⟨?_, fun hcontra => absurd hcontra (by rw [hEhost]; simp)⟩
          intro _
          rw [hroomE]
          simp only [Option.getD_some]
          rw [roomExistsB_eq_of_shapes _ _ _ hshape2]
          exact roomExistsB_roomRemoved s r
        · have hex1' : roomExistsB s1 r = false := Bool.eq_false_iff.mpr hex1
          have hnil1 : roomMembers s1 r = [] := by
            unfold roomExistsB at hex1'
            cases hmm : roomMembers s1 r with
            | nil => rfl
            | cons a t =>
              rw [hmm] at hex1'
              simp at hex1'
          rw [hstep, hhandle]
          simp only [hex1', Bool.not_false, Bool.or_true, if_true]
          have hfeq : s.clients.filter (fun x => !(x.id == cid)) =
              s.clients.filter (fun x => !(x.joined == some r)) := by
            apply List.filter_congr
            intro x hx
            by_cases hxc : x.id = cid
            · have : x = E := List.inj_on_of_nodup_map ha hx hEmem (by omega)
              rw [this]
              simp [hEid, hEj]
            · have hxj : (x.joined == some r) = false := by
                cases hxjb : (x.joined == some r) with
                | false => rfl
                | true =>
                  exfalso
                  have : x ∈ roomMembers s1 r := by
                    rw [hmemS1]
                    exact List.mem_filter.mpr
                      ⟨List.mem_filter.mpr ⟨hx, hxjb⟩, by simp [hxc]⟩
                  rw [hnil1] at this
                  cases this
              simp [hxc, hxj]
          have hclients : (removeAddress s1 E.address).clients = ({ s with clients := s.clients.filter (fun x => !(x.joined == some r)) } : ServerState).clients := by
            rw [removeAddress_clients]
            rw [hs1def]
            simp only []
            exact hfeq
          have hInvRR : Inv { s with clients := s.clients.filter (fun x => !(x.joined == some r)) } :=
            Inv_remove_room s r hInv
          have hg2 : (removeAddress s1 E.address).ghostSessions = [] := by
            rw [removeAddress_ghosts]
            exact hb
          refine ⟨Inv_congr _ _ hclients (by rw [hg2]; exact hb.symm) hInvRR, hg2,
            ?_, ?_⟩
          · intro i hi
            rw [hclients] at hi
            rcases List.mem_map.mp hi with ⟨x, hx, rfl⟩
            exact List.mem_map_of_mem _ (List.mem_filter.mp hx).1
          · intro E' hE'
            injection hE' with hEE
            subst hEE
            refine ⟨?_, fun hcontra => absurd hcontra (by rw [hEhost]; simp)⟩
            intro _
            rw [hroomE]
            simp only [Option.getD_some]
            have heq : roomExistsB (removeAddress s1 E.address) r = roomExistsB { s with clients := s.clients.filter (fun x => !(x.joined == some r)) } r := by
              unfold roomExistsB roomMembers
              rw [hclients]
            rw [heq]
            exact roomExistsB_roomRemoved s r

/-! ### Per-step preservation of the invariant on expected traces -/

theorem Inv_addAddress (s : ServerState) (a : String) (h : Inv s) :
    Inv (addAddress s a) :=
  Inv_congr _ _ (addAddress_clients s a) (addAddress_ghosts s a) h

/-- The throttle counter never affects room existence. -/
theorem roomExistsB_addAddress (s : ServerState) (a : String) (r : String) :
    roomExistsB (addAddress s a) r = roomExistsB s r := by
  unfold roomExistsB roomMembers
  rw [addAddress_clients]

theorem roomUsernames_addAddress (s : ServerState) (a : String) (r : String) :
    roomUsernames (addAddress s a) r = roomUsernames s r := by
  unfold roomUsernames roomMembers
  rw [addAddress_clients]

theorem find?_append_right {α : Type} (l₁ l₂ : List α) (p : α → Bool)
    (h : ∀ x ∈ l₁, p x = false) : (l₁ ++ l₂).find? p = l₂.find? p := by
  induction l₁ with
  | nil => rfl
  | cons a t ih =>
    have hpa : p a = false := h a (List.mem_cons_self a t)
    rw [List.cons_append, List.find?_cons_of_neg _ (by simp [hpa])]
    exact ih (fun x hx => h x (List.mem_cons_of_mem a hx))

/-- With duplicate-free socket ids, looking a registered socket up by its own
id finds exactly it. -/
theorem find?_id_self (s : ServerState) (c : Client)
    (hids : (s.clients.map (fun x => x.id)).Nodup) (hc : c ∈ s.clients) :
    s.clients.find? (fun x => x.id == c.id) = some c :=
  find?_unique s.clients (fun x => x.id == c.id) c hc (by simp)
    (fun x hx hpx => List.inj_on_of_nodup_map hids hx hc (by simpa using hpx))

/-- A shape-preserving per-socket update leaves the shapes unchanged. -/
theorem shapes_updClient (s : ServerState) (cid : Nat) (f : Client → Client)
    (hsh : ∀ x, shape (f x) = shape x) :
    shapes (updClient s cid f) = shapes s := by
  unfold updClient shapes
  simp only [List.map_map]
  apply List.map_congr_left
  intro x _
  show shape (if (x.id == cid) = true then f x else x) = shape x
  by_cases hx : (x.id == cid) = true
  · rw [if_pos hx, hsh]
  · rw [if_neg hx]

/-- A value that passes the `nonEmptyString` rule (after the pipeline
coercion) casts to a non-empty string. -/
theorem nonEmptyString_pass_ne (v : JSValue) (fn : String)
    (h : (nonEmptyString fn (jsOrUndefined v)).1 = true) : asString v ≠ "" := by
  cases v with
  | str t =>
    by_cases ht : t = ""
    · subst ht
      simp [jsOrUndefined, JSValue.truthy, nonEmptyString] at h
    · simpa [asString] using ht
  | num n =>
    exfalso
    by_cases hn : (n == 0) = true <;>
      simp [jsOrUndefined, JSValue.truthy, nonEmptyString, hn] at h
  | bool b =>
    exfalso
    cases b <;> simp [jsOrUndefined, JSValue.truthy, nonEmptyString] at h
  | null =>
    exfalso
    simp [jsOrUndefined, JSValue.truthy, nonEmptyString] at h
  | undefined =>
    exfalso
    simp [jsOrUndefined, JSValue.truthy, nonEmptyString] at h

/-- Moving one roomless socket into a room `r0` — as host of a room that does
not yet exist, or as a member of an existing room under a username not in
use there — preserves the invariant. This is the common core of a
successful `createRoom` and a successful `joinRoom`. -/
theorem Inv_upd_into_room (s : ServerState) (c : Client) (f : Client → Client)
    (r0 : String) (hInv : Inv s)
    (hc : c ∈ s.clients) (hcr : c.data.room = none)
    (hfid : (f c).id = c.id)
    (hfj : (f c).joined = some r0) (hfr : (f c).data.room = some r0)
    (hr0 : r0 ≠ "")
    (hcase :
      ((f c).data.isHost = true ∧ roomExistsB s r0 = false) ∨
      ((f c).data.isHost = false ∧ roomExistsB s r0 = true ∧
        (f c).data.username ∉ roomUsernames s r0)) :
    Inv (updClient s c.id f) := by
  obtain ⟨ha, hb, hcj, hdh, hne, hfr'⟩ := hInv
  have hcjoined : c.joined = none := by rw [hcj c hc, hcr]
  have hmemU : ∀ y ∈ (updClient s c.id f).clients, y = f c ∨ y ∈ s.clients := by
    intro y hy
    rcases List.mem_map.mp hy with ⟨x, hx, rfl⟩
    by_cases hxe : (x.id == c.id) = true
    · left
      have hxc : x = c := List.inj_on_of_nodup_map ha hx hc (by simpa using hxe)
      subst hxc
      rw [if_pos hxe]
    · right
      rw [if_neg hxe]
      exact hx
  have hids : (updClient s c.id f).clients.map (fun x => x.id) =
      s.clients.map (fun x => x.id) := by
    unfold updClient
    simp only [List.map_map]
    apply List.map_congr_left
    intro x hx
    show (if (x.id == c.id) = true then f x else x).id = x.id
    by_cases hxe : (x.id == c.id) = true
    · have hxc : x = c := List.inj_on_of_nodup_map ha hx hc (by simpa using hxe)
      subst hxc
      rw [if_pos hxe, hfid]
    · rw [if_neg hxe]
  have hmembers : ∀ r, roomMembers (updClient s c.id f) r =
      (s.clients.map (fun x => if (x.id == c.id) = true then f x else x)).filter
        (fun x => x.joined == some r) := fun r => rfl
  refine ⟨by rw [hids]; exact ha, hb, ?_, ?_, ?_, ?_⟩
  · intro y hy
    rcases hmemU y hy with rfl | hmem
    · rw [hfj, hfr]
    · exact hcj y hmem
  · intro y hy
    rcases hmemU y hy with rfl | hmem
    · intro hcon
      rw [hfr] at hcon
      cases hcon
    · exact hdh y hmem
  · intro y hy
    rcases hmemU y hy with rfl | hmem
    · rw [hfr]
      intro hcon
      exact hr0 (by injection hcon)
    · exact hne y hmem
  · intro r hr
    have hperm := filter_upd_unique s.clients c f (fun x => x.joined == some r) ha hc
    simp only [] at hperm
    have hpc : ((c.joined == some r) : Bool) = false := by rw [hcjoined]; rfl
    have hpermE : List.Perm (roomMembers s r)
        ((s.clients.erase c).filter (fun x => x.joined == some r)) := by
      have h1 : List.Perm s.clients (c :: s.clients.erase c) := List.perm_cons_erase hc
      have h2 := h1.filter (fun x => x.joined == some r)
      rw [List.filter_cons] at h2
      simp only [hpc, Bool.false_eq_true, if_false] at h2
      exact h2
    by_cases hrr : r = r0
    · subst hrr
      have hpfc : (((f c).joined == some r) : Bool) = true := by rw [hfj]; simp
      simp only [hpfc, if_true, List.singleton_append] at hperm
      rcases hcase with ⟨hhost, hnoex⟩ | ⟨hnh, hex, hu⟩
      · -- the room did not exist: the updated socket recreates it alone
        have hempty : roomMembers s r = [] := by
          unfold roomExistsB at hnoex
          cases hmm : roomMembers s r with
          | nil => rfl
          | cons a t => rw [hmm] at hnoex; simp at hnoex
        have hsubnil : (s.clients.erase c).filter (fun x => x.joined == some r) = [] := by
          have hsl : List.Sublist ((s.clients.erase c).filter (fun x => x.joined == some r))
              (s.clients.filter (fun x => x.joined == some r)) :=
            List.Sublist.filter _ (List.erase_sublist c s.clients)
          rw [show s.clients.filter (fun x => x.joined == some r) = [] from hempty] at hsl
          exact List.sublist_nil.mp hsl
        rw [hsubnil] at hperm
        constructor
        · show ((roomMembers (updClient s c.id f) r).filter
            (fun x => x.data.isHost)).length = 1
          rw [hmembers r]
          rw [(hperm.filter (fun x => x.data.isHost)).length_eq]
          simp [List.filter, hhost]
        · show ((roomMembers (updClient s c.id f) r).map
            (fun x => x.data.username)).Nodup
          rw [hmembers r]
          rw [(hperm.map (fun x => x.data.username)).nodup_iff]
          simp
      · -- the socket joins the existing room; its host and name uniqueness survive
        have hperm2 : List.Perm
            ((s.clients.map (fun x => if (x.id == c.id) = true then f x else x)).filter
              (fun x => x.joined == some r)) (f c :: roomMembers s r) := by
          refine hperm.trans ?_
          exact (hpermE.symm).cons (f c)
        obtain ⟨h1, h2⟩ := hfr' r hex
        constructor
        · show ((roomMembers (updClient s c.id f) r).filter
            (fun x => x.data.isHost)).length = 1
          rw [hmembers r]
          rw [(hperm2.filter (fun x => x.data.isHost)).length_eq]
          rw [List.filter_cons]
          rw [if_neg (by rw [hnh]; simp)]
          exact h1
        · show ((roomMembers (updClient s c.id f) r).map
            (fun x => x.data.username)).Nodup
          rw [hmembers r]
          rw [(hperm2.map (fun x => x.data.username)).nodup_iff]
          rw [List.map_cons, List.nodup_cons]
          exact ⟨hu, h2⟩
    · -- any other room is untouched by the update
      have hpfc : (((f c).joined == some r) : Bool) = false := by
        rw [hfj]
        simp [Ne.symm hrr]
      simp only [hpfc, Bool.false_eq_true, if_false, List.nil_append] at hperm
      have hperm3 := hperm.trans hpermE.symm
      have hexS : roomExistsB s r = true := by
        rw [roomExistsB_iff] at hr ⊢
        intro hnil
        rw [hmembers r] at hr
        exact hr ((hnil ▸ hperm3).eq_nil)
      obtain ⟨h1, h2⟩ := hfr' r hexS
      constructor
      · show ((roomMembers (updClient s c.id f) r).filter
          (fun x => x.data.isHost)).length = 1
        rw [hmembers r]
        rw [(hperm3.filter (fun x => x.data.isHost)).length_eq]
        exact h1
      · show ((roomMembers (updClient s c.id f) r).map
          (fun x => x.data.username)).Nodup
        rw [hmembers r]
        rw [(hperm3.map (fun x => x.data.username)).nodup_iff]
        exact h2

/-- After the non-host socket `eu` is removed, its username is free in its
room again. -/
theorem username_free_after_remove (s : ServerState) (eu : Client)
    (t : ServerState) (r : String) (hInv : Inv s) (heumem : eu ∈ s.clients)
    (hroom : eu.data.room = some r)
    (hsh : shapes t = shapes { s with clients := s.clients.filter (fun x => !(x.id == eu.id)) }) :
    eu.data.username ∉ roomUsernames t r := by
  obtain ⟨ha, hb, hcj, hdh, hne, hfr'⟩ := hInv
  have heuj : eu.joined = some r := by rw [hcj eu heumem, hroom]
  have heuRM : eu ∈ roomMembers s r := List.mem_filter.mpr ⟨heumem, by simp [heuj]⟩
  have hexS : roomExistsB s r = true := by
    rw [roomExistsB_iff]
    intro hnil
    rw [hnil] at heuRM
    cases heuRM
  have hNod : (roomUsernames s r).Nodup := (hfr' r hexS).2
  have ht : roomUsernames t r = roomUsernames { s with clients := s.clients.filter (fun x => !(x.id == eu.id)) } r := by
    rw [roomUsernames_shapes, roomUsernames_shapes, hsh]
  rw [ht]
  have hmm : roomMembers { s with clients := s.clients.filter (fun x => !(x.id == eu.id)) } r =
      (roomMembers s r).filter (fun x => !(x.id == eu.id)) := by
    unfold roomMembers
    exact filter_comm_clients _ _ _
  have hmids : ((roomMembers s r).map (fun x => x.id)).Nodup :=
    List.Nodup.sublist (List.Sublist.map _ (List.filter_sublist _)) ha
  have herase : (roomMembers s r).filter (fun x => !(x.id == eu.id)) =
      (roomMembers s r).erase eu :=
    filter_ne_id_eq_erase _ eu hmids heuRM
  have hpermM : List.Perm (roomMembers s r) (eu :: (roomMembers s r).erase eu) :=
    List.perm_cons_erase heuRM
  have hNod' : (List.map (fun x => x.data.username) (roomMembers s r)).Nodup := hNod
  have hNod2 : (List.map (fun x => x.data.username)
      (eu :: (roomMembers s r).erase eu)).Nodup :=
    ((hpermM.map (fun x => x.data.username)).nodup_iff).mp hNod'
  rw [List.map_cons, List.nodup_cons] at hNod2
  intro hmem
  apply hNod2.1
  unfold roomUsernames at hmem
  rw [hmm, herase] at hmem
  exact hmem

/-- A successful or failed `createRoom` preserves the invariant (the
generated room name is fresh and non-empty, as the generator guarantees). -/
theorem Inv_createRoomEvent (s : ServerState) (cid : Nat) (args : List JSValue)
    (roomName : String) (hInv : Inv s)
    (hok : roomExistsB s roomName = false) (hne : roomName ≠ "") :
    Inv (((createRoomEvent s cid args roomName).map (fun r => r.1)).getD s) := by
  unfold createRoomEvent
  cases hfind : s.clients.find? (fun c => c.id == cid) with
  | none => exact hInv
  | some c =>
    simp only [Option.map_some', Option.getD_some]
    cases hval : validateEventArguments [nonEmptyString "Username"] args with
    | some msg => exact hInv
    | none =>
      cases hpres : validateRoomPresence c false with
      | some msg => exact hInv
      | none =>
        have hcmem : c ∈ s.clients := List.mem_of_find?_eq_some hfind
        have hcroom : c.data.room = none := by
          unfold validateRoomPresence at hpres
          cases hcr : c.data.room with
          | none => rfl
          | some t => rw [hcr] at hpres; simp at hpres
        unfold onCreateRoom
        simp only []
        rw [emitRoomStateChange_fst]
        exact Inv_upd_into_room s c _ roomName hInv hcmem hcroom rfl rfl rfl hne
          (Or.inl ⟨rfl, hok⟩)

/-- Every outcome of a `joinRoom` event preserves the invariant. -/
theorem Inv_joinRoomEvent (s : ServerState) (cid : Nat) (args : List JSValue)
    (hInv : Inv s) :
    Inv (((joinRoomEvent s cid args).map (fun r => r.1)).getD s) := by
  unfold joinRoomEvent
  cases hfind : s.clients.find? (fun c => c.id == cid) with
  | none => exact hInv
  | some c =>
    simp only [Option.map_some', Option.getD_some]
    cases hval : validateEventArguments
        [nonEmptyString "Username", nonEmptyString "Room name"] args with
    | some msg => exact hInv
    | none =>
      cases hpres : validateRoomPresence c false with
      | some msg => exact hInv
      | none =>
        unfold onJoinRoom
        by_cases hex : roomExistsB s (asString (args.tail.headD JSValue.undefined)) = true
        · rw [if_neg (by rw [hex]; simp)]
          cases hfu : (roomMembers s (asString (args.tail.headD JSValue.undefined))).find?
              (fun m => m.data.username == asString (args.headD JSValue.undefined)) with
          | some m => exact hInv
          | none =>
            simp only []
            rw [emitRoomStateChange_fst]
            have hv2 : (nonEmptyString "Room name"
                (jsOrUndefined (args.tail.headD JSValue.undefined))).1 = true := by
              simp only [validateEventArguments] at hval
              by_cases h1 : (nonEmptyString "Username"
                  (jsOrUndefined (args.headD JSValue.undefined))).1 = true
              · rw [if_pos h1] at hval
                by_cases h2 : (nonEmptyString "Room name"
                    (jsOrUndefined (args.tail.headD JSValue.undefined))).1 = true
                · exact h2
                · rw [if_neg h2] at hval
                  cases hval
              · rw [if_neg h1] at hval
                cases hval
            have hrnne : asString (args.tail.headD JSValue.undefined) ≠ "" :=
              nonEmptyString_pass_ne _ _ hv2
            have hcmem : c ∈ s.clients := List.mem_of_find?_eq_some hfind
            have hcroom : c.data.room = none := by
              unfold validateRoomPresence at hpres
              cases hcr : c.data.room with
              | none => rfl
              | some t => rw [hcr] at hpres; simp at hpres
            have hnh : c.data.isHost = false := hInv.2.2.2.1 c hcmem hcroom
            have hu' : asString (args.headD JSValue.undefined) ∉
                roomUsernames s (asString (args.tail.headD JSValue.undefined)) := by
              intro hmem
              rcases List.mem_map.mp hmem with ⟨m, hm, hmu⟩
              have := List.find?_eq_none.mp hfu m hm
              exact this (by simp [hmu])
            exact Inv_upd_into_room s c _ (asString (args.tail.headD JSValue.undefined))
              hInv hcmem hcroom rfl rfl rfl hrnne (Or.inr ⟨hnh, hex, hu'⟩)
        · have hexf : roomExistsB s (asString (args.tail.headD JSValue.undefined)) = false :=
            Bool.eq_false_iff.mpr hex
          rw [if_pos (by rw [hexf]; rfl)]
          exact hInv

/-- Readiness processing on a shape-equal state preserves the invariant. -/
theorem Inv_readyCheck_of (s t : ServerState) (r : String) (h : Inv s)
    (hsh : shapes t = shapes s) (hg : t.ghostSessions = s.ghostSessions) :
    Inv (entireRoomReadyCheck t r).1 :=
  Inv_of_shapes _ s (by rw [(entireRoomReadyCheck_shapes t r).1, hsh])
    (by rw [(entireRoomReadyCheck_shapes t r).2.1, hg]) h

/-- Every outcome of a `toggleReady` event preserves the invariant: the
toggle and the possible unanimous reset only flip readiness flags. -/
theorem Inv_toggleReadyEvent (s : ServerState) (cid : Nat) (hInv : Inv s) :
    Inv (((toggleReadyEvent s cid).map (fun r => r.1)).getD s) := by
  unfold toggleReadyEvent
  cases hfind : s.clients.find? (fun c => c.id == cid) with
  | none => exact hInv
  | some c =>
    simp only [Option.map_some', Option.getD_some]
    cases hpres : validateRoomPresence c true with
    | some msg => exact hInv
    | none =>
      unfold onToggleReady
      simp only []
      rw [emitRoomStateChange_fst]
      exact Inv_readyCheck_of s _ _ hInv (shapes_updClient s c.id _ (fun x => rfl)) rfl

/-- Every outcome of an `updateClipboard` event preserves the invariant: only
the host clipboard changes. -/
theorem Inv_updateClipboardEvent (cfg : Configuration) (s : ServerState)
    (cid : Nat) (args : List JSValue) (hInv : Inv s) :
    Inv (((updateClipboardEvent cfg s cid args).map (fun r => r.1)).getD s) := by
  unfold updateClipboardEvent
  cases hfind : s.clients.find? (fun c => c.id == cid) with
  | none => exact hInv
  | some c =>
    simp only [Option.map_some', Option.getD_some]
    cases hval : validateEventArguments [string "Clipboard entry"] args with
    | some msg => exact hInv
    | none =>
      cases hpres : validateRoomPresence c true with
      | some msg => exact hInv
      | none =>
        unfold onUpdateClipboard
        by_cases hh : c.data.isHost = true
        · rw [if_neg (by rw [hh]; simp)]
          simp only []
          rw [emitRoomStateChange_fst]
          exact Inv_of_shapes _ s (shapes_updClient s c.id _ (fun x => rfl)) rfl hInv
        · rw [if_pos (by rw [Bool.eq_false_iff.mpr hh]; rfl)]
          exact hInv

/-- Admitting a brand-new session preserves the invariant. -/
theorem Inv_finishConnect_none (s : ServerState) (cid : Nat) (addr fresh : String)
    (hInv : Inv s) (hfresh : ∀ x ∈ s.clients, x.id ≠ cid) :
    Inv (finishConnect s cid addr none fresh).1 := by
  unfold finishConnect
  simp only []
  exact Inv_append_fresh (addAddress s addr) cid addr fresh
    (Inv_addAddress s addr hInv)
    (by intro x hx; rw [addAddress_clients] at hx; exact hfresh x hx)

/-- A freshly registered socket carrying non-host data for a room that no
longer exists is immediately disconnected again: the whole round trip only
touches the address counters. -/
theorem discClient_fresh_gone_room (s : ServerState) (cid : Nat) (addr : String)
    (d : VNSyncData) (r : String)
    (hfresh : ∀ x ∈ s.clients, x.id ≠ cid)
    (hd : d.room = some r) (hr : r ≠ "")
    (hnoex : roomExistsB s r = false) :
    (discRun (bigFuel { s with clients := s.clients ++ [⟨cid, addr, d, none⟩] })
        { s with clients := s.clients ++ [⟨cid, addr, d, none⟩] }
        (.client cid "server namespace disconnect" 0)).1 =
      removeAddress { s with clients := s.clients } addr := by
  set s2 : ServerState := { s with clients := s.clients ++ [⟨cid, addr, d, none⟩] } with hs2
  have hfind : s2.clients.find? (fun x => x.id == cid) = some ⟨cid, addr, d, none⟩ := by
    rw [hs2]
    simp only []
    rw [find?_append_right s.clients [⟨cid, addr, d, none⟩] (fun x => x.id == cid) (by
      intro x hx
      simpa using hfresh x hx)]
    simp [List.find?]
  have hfilter : s2.clients.filter (fun x => !(x.id == cid)) = s.clients := by
    rw [hs2]
    simp only []
    rw [List.filter_append]
    rw [List.filter_eq_self.mpr (by
      intro x hx
      simpa using hfresh x hx)]
    simp
  rw [discRun_client_eq _ _ _ _ _ (by unfold bigFuel; omega), hfind]
  simp only []
  rw [hfilter]
  rw [discRun_onDis_eq _ _ _ _ _ (by unfold bigFuel; omega)]
  rw [show badReasons.contains "server namespace disconnect" = false from by decide]
  simp only [Bool.false_eq_true, if_false]
  rw [discRun_handle_eq _ _ _ (by unfold bigFuel; omega)]
  simp only [hd, Option.getD_some]
  rw [show ((r == "") || !(roomExistsB { s2 with clients := s.clients } r)) = true from by
    have hsame : roomExistsB { s2 with clients := s.clients } r = roomExistsB s r := by
      unfold roomExistsB roomMembers
      rfl
    rw [hsame, hnoex]
    simp]
  simp only [if_true]

/-- Every outcome of a handshake on a ghost-free invariant state — refusal,
fresh admission, or preemption of a still-active session followed by the
inherited rejoin or immediate re-disconnect — preserves the invariant. -/
theorem Inv_connect (cfg : Configuration) (s : ServerState) (cid : Nat)
    (addr : String) (auth : Option String) (fresh : String) (hInv : Inv s)
    (hfresh : ∀ x ∈ s.clients, x.id ≠ cid) :
    Inv (connectStep cfg s cid addr auth fresh).1 := by
  unfold connectStep
  by_cases hbl : isAddressBlocked cfg s addr = true
  · rw [if_pos hbl]
    exact hInv
  · rw [if_neg hbl]
    cases auth with
    | none =>
      simp only []
      exact Inv_finishConnect_none s cid addr fresh hInv hfresh
    | some sid =>
      simp only []
      by_cases hsid : (sid == "") = true
      · rw [if_pos hsid]
        exact Inv_finishConnect_none s cid addr fresh hInv hfresh
      · rw [if_neg hsid]
        rw [hInv.2.1]
        simp only [lookupA]
        cases hget : getClientBySessionId s sid with
        | none =>
          simp only []
          exact Inv_finishConnect_none s cid addr fresh hInv hfresh
        | some eu =>
          simp only []
          have heumem : eu ∈ s.clients := List.mem_of_find?_eq_some hget
          have hfindeu : s.clients.find? (fun x => x.id == eu.id) = some eu :=
            find?_id_self s eu hInv.1 heumem
          have hfull := discClient_expected_full s eu.id "server namespace disconnect"
            0 hInv (by decide)
          obtain ⟨hI1, hG1, hSub, hSpec⟩ := hfull
          obtain ⟨hSpecH, hSpecN⟩ := hSpec eu hfindeu
          set t := (discRun (bigFuel s) s
            (.client eu.id "server namespace disconnect" 0)).1 with ht
          have hfresh1 : ∀ x ∈ t.clients, x.id ≠ cid := by
            intro x hx hxe
            have hxin : x.id ∈ s.clients.map (fun y => y.id) :=
              hSub x.id (List.mem_map_of_mem _ hx)
            rcases List.mem_map.mp hxin with ⟨y, hy, hye⟩
            exact hfresh y hy (by rw [hye, hxe])
          have hfresh2 : ∀ x ∈ (addAddress t addr).clients, x.id ≠ cid := by
            intro x hx
            rw [addAddress_clients] at hx
            exact hfresh1 x hx
          unfold finishConnect
          simp only []
          cases hroom : eu.data.room with
          | none =>
            simp only [Option.getD_none]
            rw [if_pos (by rfl)]
            exact Inv_append_fresh (addAddress t addr) cid addr fresh
              (Inv_addAddress t addr hI1) hfresh2
          | some r =>
            have hrne : r ≠ "" := by
              have := hInv.2.2.2.2.1 eu heumem
              rw [hroom] at this
              intro hcon
              exact this (by rw [hcon])
            simp only [Option.getD_some]
            rw [if_neg (by simp [hrne])]
            by_cases hh : eu.data.isHost = true
            · have hnoex : roomExistsB t r = false := by
                have := hSpecH hh
                rw [hroom] at this
                simpa using this
              have hnoex1 : roomExistsB (addAddress t addr) r = false := by
                rw [roomExistsB_addAddress]
                exact hnoex
              rw [if_neg (by rw [hnoex1, hh]; simp)]
              rw [emitRoomStateChange_fst]
              exact Inv_append_host (addAddress t addr) cid addr eu.data r
                (Inv_addAddress t addr hI1) hfresh2 hroom hrne hh hnoex1
            · have hhf : eu.data.isHost = false := Bool.eq_false_iff.mpr hh
              have hshEq := hSpecN hhf
              by_cases hex2 : roomExistsB (addAddress t addr) r = true
              · rw [if_neg (by rw [hex2]; simp)]
                rw [emitRoomStateChange_fst]
                refine Inv_append_member (addAddress t addr) cid addr eu.data r
                  (Inv_addAddress t addr hI1) hfresh2 hroom hrne hhf hex2 ?_
                rw [roomUsernames_addAddress]
                exact username_free_after_remove s eu t r hInv heumem hroom hshEq
              · have hex2f : roomExistsB (addAddress t addr) r = false :=
                  Bool.eq_false_iff.mpr hex2
                rw [if_pos (by rw [hex2f, hhf]; rfl)]
                rw [discClient_fresh_gone_room (addAddress t addr) cid addr eu.data r
                  hfresh2 hroom hrne hex2f]
                exact Inv_congr _ _ (removeAddress_clients _ _)
                  (removeAddress_ghosts _ _) (Inv_addAddress t addr hI1)

/-- A step is *expected* when it is not an unexpected disconnect: every
disconnect it performs carries a reason outside the server's `badReasons`
classification (client-initiated and server-initiated closures). -/
def ExpectedStep : Step → Prop
  | .disconnect _ reason _ => badReasons.contains reason = false
  | _ => True

/-- One expected, generator-respecting step preserves the invariant. -/
theorem Inv_applyStep (cfg : Configuration) (s : ServerState) (st : Step)
    (hInv : Inv s) (hok : StepOK s st) (hexp : ExpectedStep st) :
    Inv (applyStep cfg s st) := by
  cases st with
  | connect cid address auth fresh =>
    exact Inv_connect cfg s cid address auth fresh hInv (fun c hc => hok c hc)
  | createRoom cid args roomName =>
    exact Inv_createRoomEvent s cid args roomName hInv hok.1 hok.2
  | joinRoom cid args => exact Inv_joinRoomEvent s cid args hInv
  | toggleReady cid => exact Inv_toggleReadyEvent s cid hInv
  | updateClipboard cid args => exact Inv_updateClipboardEvent cfg s cid args hInv
  | disconnect cid reason now =>
    exact (discClient_expected_full s cid reason now hInv hexp).1
  | cleanGhosts now =>
    show Inv (cleanGhostSessions cfg now s).1
    unfold cleanGhostSessions
    rw [hInv.2.1]
    exact hInv

/-- The states reachable from the empty server along traces whose
nondeterministic inputs respect the generators and whose disconnects are
all expected. -/
inductive ReachableExpected (cfg : Configuration) : ServerState → Prop where
  | init : ReachableExpected cfg initialState
  | step (s : ServerState) (st : Step) (h : ReachableExpected cfg s)
      (hok : StepOK s st) (hexp : ExpectedStep st) :
      ReachableExpected cfg (applyStep cfg s st)

/-- The invariant holds in every reachable expected-trace state. -/
theorem Inv_reachable (cfg : Configuration) (s : ServerState)
    (h : ReachableExpected cfg s) : Inv s := by
  induction h with
  | init => exact Inv_initialState
  | step s' st h hok hexp ih => exact Inv_applyStep cfg s' st ih hok hexp

/-- The one-host one-room demonstration trace behind the C1 witness. -/
def c1Step1 : Step := .connect 0 "a" none "sid0"

def c1Step2 : Step := .createRoom 0 [JSValue.str "alice"] "r"

def c1State1 : ServerState := applyStep cfgDefault initialState c1Step1

def c1State2 : ServerState := applyStep cfgDefault c1State1 c1Step2

/-- C1 (amended): for every existing room, exactly one currently connected
member has `isHost = true` and the usernames of the current members are
pairwise distinct, and this invariant is preserved by every operation —
`createRoom`, `joinRoom`, `toggleReady`, `updateClipboard`, disconnect
handling, ghost-session expiry and reconnection — along every execution in
which all disconnects are expected (client- or server-initiated); an
unexpected (ghosting) disconnect of a host falsifies the unqualified claim,
as `C1_counterexample_hostless_room` shows. -/
theorem C1_room_invariant_expected_traces (cfg : Configuration)
    (s : ServerState) (h : ReachableExpected cfg s) (r : String)
    (hex : roomExistsB s r = true) :
    hostCount s r = 1 ∧ (roomUsernames s r).Nodup :=
  (Inv_reachable cfg s h).2.2.2.2.2 r hex

theorem C1_room_invariant_expected_traces_witness :
    hostCount c1State2 "r" = 1 ∧ (roomUsernames c1State2 "r").Nodup :=
  C1_room_invariant_expected_traces cfgDefault c1State2
    (ReachableExpected.step c1State1 c1Step2
      (ReachableExpected.step initialState c1Step1 ReachableExpected.init
        (fun c hc => absurd hc (List.not_mem_nil c)) trivial)
      ⟨by rfl, by decide⟩ trivial)
    "r" (by rfl)

end VNSync
